import Mathlib

/-!
Shallow embedding of the project scanner (`src/user-scripts/project-scanner/scanner.ts`)
and proofs about its call-graph construction, injection-based call resolution and
derived analyses.  External collaborators (the ts-morph AST provider, the
filesystem and the path library) are modelled as explicit inputs: the embedding
receives, per file, the structural data that the scanner reads off the syntax
tree (class names, method names, raw call-expression texts, decorator argument
texts, ...), and computes everything the scanner itself computes.

JavaScript `Map`s are modelled as insertion-ordered association lists,
JavaScript `Set`s as insertion-ordered duplicate-free lists, and the handful of
regular expressions used by the scanner are implemented as deterministic
matchers on `List Char` (each of the scanner's patterns has disjoint character
classes at every choice point, so greedy matching without backtracking is
equivalent; the one place where backtracking is observable, the interpolation
pattern, is folded away by the `trim()` the scanner applies to the capture).
-/

namespace S2P

/-! ## JavaScript-style primitive helpers -/

/-- Character class of the JS regex token `\w` (ASCII word characters). -/
def wordChar (c : Char) : Bool := c.isAlpha || c.isDigit || c == '_'

/-- Character class of the JS regex token `\s` (ASCII whitespace forms). -/
def spaceChar (c : Char) : Bool :=
  c == ' ' || c == '\t' || c == '\n' || c == '\r' || c == '\x0b' || c == '\x0c'

/-- Strip a literal prefix, returning the remainder on success. -/
def dropLit : List Char → List Char → Option (List Char)
  | [], s => some s
  | _ :: _, [] => none
  | c :: cs, d :: ds => if c == d then dropLit cs ds else none

/-- Consume one expected character. -/
def expectChar (c : Char) : List Char → Option (List Char)
  | [] => none
  | d :: ds => if d == c then some ds else none

/-- Greedily consume `\s*`. -/
def skipSpaces (s : List Char) : List Char := s.dropWhile spaceChar

/-- Greedily consume `\w+` (fails on an empty run), returning capture and rest. -/
def takeWord (s : List Char) : Option (List Char × List Char) :=
  let w := s.takeWhile wordChar
  if w.isEmpty then none else some (w, s.dropWhile wordChar)

/-- Greedily consume one or more characters outside `stop` (a negated class). -/
def takeUntil (stop : Char) (s : List Char) : Option (List Char × List Char) :=
  let w := s.takeWhile (fun c => !(c == stop))
  if w.isEmpty then none else some (w, s.dropWhile (fun c => !(c == stop)))

/-- JS `String.prototype.trim` (whitespace stripped from both ends). -/
def jsTrim (s : String) : String :=
  String.mk (((s.toList.dropWhile spaceChar).reverse.dropWhile spaceChar).reverse)

/-- JS `substring(0, n)`. -/
def strTake (n : Nat) (s : String) : String := String.mk (s.toList.take n)

/-- JS `String.prototype.endsWith`. -/
def strEndsWith (s suffixStr : String) : Bool :=
  (dropLit suffixStr.toList.reverse s.toList.reverse).isSome

/-- Whitespace collapsing of `extractCalls` (`replace(/\s+/g, ' ')`), carrying
a flag for "inside a whitespace run". -/
def collapseWsAux (prevSpace : Bool) : List Char → List Char
  | [] => []
  | c :: cs =>
    if spaceChar c then
      if prevSpace then collapseWsAux true cs
      else ' ' :: collapseWsAux true cs
    else c :: collapseWsAux false cs

/-- Whitespace collapsing: each maximal whitespace run becomes one space. -/
def collapseWs (s : List Char) : List Char := collapseWsAux false s

/-- The scanner's call-text normalization `text.replace(/\s+/g, ' ').trim()`. -/
def normalizeWs (s : String) : String := jsTrim (String.mk (collapseWs s.toList))

/-! ## JS `Map` (insertion-ordered association list) and `Set` model -/

/-- JS `Map.get`. -/
def mapGet (g : List (String × α)) (k : String) : Option α :=
  match g with
  | [] => none
  | (k2, v) :: rest => if k2 = k then some v else mapGet rest k

/-- JS `Map.set`: replace the value in place when the key exists, else append. -/
def mapSet (g : List (String × α)) (k : String) (v : α) : List (String × α) :=
  match g with
  | [] => [(k, v)]
  | (k2, v2) :: rest => if k2 = k then (k2, v) :: rest else (k2, v2) :: mapSet rest k v

/-- JS `Map.has`. -/
def mapHas (g : List (String × α)) (k : String) : Bool := (mapGet g k).isSome

/-- JS `Set.add`: append when absent. -/
def setAdd (s : List String) (c : String) : List String :=
  if c ∈ s then s else s ++ [c]

/-- Spread of `new Set(l)`: deduplicate keeping first occurrences. -/
def dedupFirstAux (seen : List String) : List String → List String
  | [] => []
  | x :: xs =>
    if x ∈ seen then dedupFirstAux seen xs
    else x :: dedupFirstAux (seen ++ [x]) xs

/-- `[...new Set(l)]` in insertion order. -/
def dedupFirst (l : List String) : List String := dedupFirstAux [] l

/-! ## Regex matchers used by the scanner -/

/-- Shared front of the patterns at scanner.ts:154 and :169:
`^this\.(_?\w+)\s*\.\s*(\w+)` with the unconsumed remainder.
Since `_` is itself a word character, the capture `(_?\w+)` is exactly the
maximal word run. -/
def matchThisChain (s : List Char) : Option (String × String × List Char) :=
  (dropLit "this.".toList s).bind fun r1 =>
  (takeWord r1).bind fun p1 =>
  (expectChar '.' (skipSpaces p1.2)).bind fun r2 =>
  (takeWord (skipSpaces r2)).map fun p2 =>
  (String.mk p1.1, String.mk p2.1, p2.2)

/-- `call.match(/^this\.(_?\w+)\s*\.\s*(\w+)/)` (scanner.ts:154). -/
def matchSimpleCall (call : String) : Option (String × String) :=
  (matchThisChain call.toList).map fun r => (r.1, r.2.1)

/-- `call.match(/^this\.(_?\w+)\s*\.\s*(\w+)\s*\.\s*(\w+)/)` (scanner.ts:169). -/
def matchNestedCall (call : String) : Option (String × String × String) :=
  (matchThisChain call.toList).bind fun r =>
  (expectChar '.' (skipSpaces r.2.2)).bind fun r2 =>
  (takeWord (skipSpaces r2)).map fun p3 =>
  (r.1, r.2.1, String.mk p3.1)

/-- Try `inject\s*\(\s*(\w+)\s*\)\s*\.\s*(\w+)` at the current position. -/
def matchInjectCallAt (s : List Char) : Option (String × String) :=
  (dropLit "inject".toList s).bind fun r1 =>
  (expectChar '(' (skipSpaces r1)).bind fun r2 =>
  (takeWord (skipSpaces r2)).bind fun p1 =>
  (expectChar ')' (skipSpaces p1.2)).bind fun r3 =>
  (expectChar '.' (skipSpaces r3)).bind fun r4 =>
  (takeWord (skipSpaces r4)).map fun p2 =>
  (String.mk p1.1, String.mk p2.1)

/-- Unanchored leftmost search used by `call.match(/inject\s*\(...\)\s*\.\s*(\w+)/)`
(scanner.ts:187 and :213). -/
def findInjectCallAux : List Char → Option (String × String)
  | [] => none
  | c :: cs =>
    match matchInjectCallAt (c :: cs) with
    | some r => some r
    | none => findInjectCallAux cs

/-- `call.match(/inject\s*\(\s*(\w+)\s*\)\s*\.\s*(\w+)/)`. -/
def findInjectCall (call : String) : Option (String × String) :=
  findInjectCallAux call.toList

/-- Try `inject\s*\(\s*(\w+)\s*\)` at the current position. -/
def matchInjectOpenAt (s : List Char) : Option String :=
  (dropLit "inject".toList s).bind fun r1 =>
  (expectChar '(' (skipSpaces r1)).bind fun r2 =>
  (takeWord (skipSpaces r2)).bind fun p1 =>
  (expectChar ')' (skipSpaces p1.2)).map fun _ =>
  String.mk p1.1

/-- Unanchored search of `initializer.match(/inject\s*\(\s*(\w+)\s*\)/)`
(scanner.ts:112). -/
def findInjectBindingAux : List Char → Option String
  | [] => none
  | c :: cs =>
    match matchInjectOpenAt (c :: cs) with
    | some r => some r
    | none => findInjectBindingAux cs

/-- Property-initializer injection pattern of `collectClassInfo`. -/
def findInjectBinding (s : String) : Option String := findInjectBindingAux s.toList

/-- `initText.match(/^inject\s*\(\s*(\w+)\s*\)/)` (scanner.ts:424, anchored). -/
def matchInjectAnchored (s : String) : Option String := matchInjectOpenAt s.toList

/-- `call.match(/^(\w+)\s*\.\s*(\w+)/)` (scanner.ts:222). -/
def matchLocalVarCall (call : String) : Option (String × String) :=
  (takeWord call.toList).bind fun p1 =>
  (expectChar '.' (skipSpaces p1.2)).bind fun r2 =>
  (takeWord (skipSpaces r2)).map fun p2 =>
  (String.mk p1.1, String.mk p2.1)

/-- Try `(\w+)\s*\(` at the current position. -/
def matchMethodNameAt (s : List Char) : Option String :=
  (takeWord s).bind fun p1 =>
  (expectChar '(' (skipSpaces p1.2)).map fun _ =>
  String.mk p1.1

/-- Unanchored leftmost search of `binding.expression.match(/(\w+)\s*\(/)`
(scanner.ts:494). -/
def findMethodNameAux : List Char → Option String
  | [] => none
  | c :: cs =>
    match matchMethodNameAt (c :: cs) with
    | some r => some r
    | none => findMethodNameAux cs

/-- First call-like substring of a template binding expression. -/
def findMethodName (s : String) : Option String := findMethodNameAux s.toList

/-- Try `this\.(_?\w+)\.` at the current position (note: no `\s*` in this one). -/
def matchServiceAccessAt (s : List Char) : Option String :=
  (dropLit "this.".toList s).bind fun r1 =>
  (takeWord r1).bind fun p1 =>
  (expectChar '.' p1.2).map fun _ =>
  String.mk p1.1

/-- Unanchored search of `call.match(/this\.(_?\w+)\./)` (scanner.ts:752). -/
def findServiceAccessAux : List Char → Option String
  | [] => none
  | c :: cs =>
    match matchServiceAccessAt (c :: cs) with
    | some r => some r
    | none => findServiceAccessAux cs

/-- Service-access pattern used by `generateSummary`. -/
def findServiceAccess (s : String) : Option String := findServiceAccessAux s.toList

/-- JS `String.prototype.startsWith`. -/
def strStartsWith (s p : String) : Bool := (dropLit p.toList s.toList).isSome

/-- Substring containment, JS `String.prototype.includes`. -/
def containsSubAux (pat : List Char) : List Char → Bool
  | [] => (dropLit pat []).isSome
  | c :: cs => (dropLit pat (c :: cs)).isSome || containsSubAux pat cs

/-- JS `s.includes(sub)`. -/
def strContainsSub (s sub : String) : Bool := containsSubAux sub.toList s.toList

/-- JS `s.replace(pat, repl)` with a plain-string pattern (first occurrence only). -/
def jsReplaceOnceAux (pat repl : List Char) : List Char → Option (List Char)
  | [] => match pat with | [] => some repl | _ :: _ => none
  | c :: cs =>
    match dropLit pat (c :: cs) with
    | some rest => some (repl ++ rest)
    | none => (jsReplaceOnceAux pat repl cs).map (fun r => c :: r)

/-- First-occurrence string replacement. -/
def jsReplaceOnce (s pat repl : String) : String :=
  match jsReplaceOnceAux pat.toList repl.toList s.toList with
  | some r => String.mk r
  | none => s

/-- JS `s.substring(0, s.lastIndexOf('/'))` (empty when there is no slash). -/
def jsSubstringToLastSlash (s : String) : String :=
  match s.toList.reverse.dropWhile (fun c => !(c == '/')) with
  | [] => ""
  | _ :: rest => String.mk rest.reverse

/-- JS `Array.prototype.indexOf`. -/
def jsIndexOfAux (x : String) : List String → Nat → Int
  | [], _ => -1
  | y :: ys, i => if y = x then Int.ofNat i else jsIndexOfAux x ys (i + 1)

/-- Index of the first occurrence, `-1` when absent. -/
def jsIndexOf (l : List String) (x : String) : Int := jsIndexOfAux x l 0

/-- Code-unit comparison backing JS default `Array.prototype.sort` on strings. -/
def lexLtChars : List Char → List Char → Bool
  | [], [] => false
  | [], _ :: _ => true
  | _ :: _, [] => false
  | a :: as, b :: bs =>
    if a.toNat < b.toNat then true
    else if b.toNat < a.toNat then false
    else lexLtChars as bs

/-- JS default string ordering. -/
def jsStrLt (a b : String) : Bool := lexLtChars a.toList b.toList

/-- Insertion step of the default ascending string sort. -/
def sortStrInsert (x : String) : List String → List String
  | [] => [x]
  | y :: ys => if jsStrLt x y then x :: y :: ys else y :: sortStrInsert x ys

/-- JS `array.sort()` on an array of strings. -/
def jsSortStrings (l : List String) : List String := l.foldr sortStrInsert []

/-- JS `String.prototype.split` with a single-character separator. -/
def splitOnCharAux (sep : Char) : List Char → List (List Char)
  | [] => [[]]
  | c :: cs =>
    let r := splitOnCharAux sep cs
    if c == sep then [] :: r
    else
      match r with
      | [] => [[c]]
      | h :: t => (c :: h) :: t

/-- JS `s.split(sep)`. -/
def jsSplit (s : String) (sep : Char) : List String :=
  (splitOnCharAux sep s.toList).map String.mk

/-- The `\\` to `/` normalization applied to paths (`replace(/\\/g, '/')`). -/
def replaceBackslash (s : String) : String :=
  String.mk (s.toList.map (fun c => if c == '\\' then '/' else c))

/-- Stable descending insertion by a numeric key; mirrors a stable JS
`sort((a, b) => key(b) - key(a))`. -/
def insertDescBy (key : α → Nat) (x : α) : List α → List α
  | [] => [x]
  | y :: ys => if key y ≤ key x then x :: y :: ys else y :: insertDescBy key x ys

/-- Stable descending sort by a numeric key. -/
def sortDescBy (key : α → Nat) (l : List α) : List α := l.foldr (insertDescBy key) []

/-! ## Data model (`types.ts` shapes as read off their uses in `scanner.ts`) -/

/-- Import entry of a `FileInfo`. -/
structure ImportInfo where
  module : String
  named : List String
deriving DecidableEq, Repr

/-- Parameter entry of a method or function. -/
structure ParamInfo where
  name : String
  type : String
deriving DecidableEq, Repr

/-- Extracted method data, including raw call texts and derived caller lists. -/
structure MethodInfo where
  name : String
  line : Nat
  params : List ParamInfo
  returnType : String
  modifiers : List String
  decorators : List String
  calls : List String
  calledBy : List String
  callChain : Option (List (List String))
deriving DecidableEq, Repr

/-- Extracted property data. -/
structure PropertyInfo where
  name : String
  line : Nat
  type : String
  modifiers : List String
  decorators : List String
  initializer : Option String
deriving DecidableEq, Repr

/-- Extracted free-function data (declared or variable-bound). -/
structure FunctionInfo where
  name : String
  line : Nat
  params : List ParamInfo
  returnType : String
  calls : List String
  exported : Bool
deriving DecidableEq, Repr

/-- Extracted class data. -/
structure ClassInfo where
  name : String
  line : Nat
  extendsName : Option String
  implementsList : List String
  decorators : List String
  methods : List MethodInfo
  properties : List PropertyInfo
deriving DecidableEq, Repr

/-- A binding expression extracted from UI markup. -/
structure TemplateBinding where
  type : String
  expression : String
deriving DecidableEq, Repr

/-- Per-file extraction result. -/
structure FileInfo where
  path : String
  relativePath : String
  imports : List ImportInfo
  exports : List String
  classes : List ClassInfo
  functions : List FunctionInfo
  templateBindings : List TemplateBinding
deriving DecidableEq, Repr

/-- Dead-code report entry. -/
structure DeadCodeItem where
  type : String
  name : String
  fullName : String
  file : String
  line : Nat
  reason : String
deriving DecidableEq, Repr

/-- Inheritance report entry. -/
structure InheritanceInfo where
  className : String
  extendsName : String
  inheritedMethods : List String
  overriddenMethods : List String
deriving DecidableEq, Repr

/-- Circular-dependency report entry. -/
structure CircularDependency where
  cycle : List String
  description : String
deriving DecidableEq, Repr

/-- Ranking entries of the summary. -/
structure MethodRank where
  name : String
  callerCount : Nat
deriving DecidableEq, Repr

/-- Service-usage ranking entry. -/
structure ServiceRank where
  name : String
  usageCount : Nat
deriving DecidableEq, Repr

/-- Class-size ranking entry. -/
structure ClassRank where
  name : String
  methodCount : Nat
  file : String
deriving DecidableEq, Repr

/-- Import-count ranking entry. -/
structure FileRank where
  file : String
  importCount : Nat
deriving DecidableEq, Repr

/-- The four top-10 rankings of `generateSummary`. -/
structure SummaryStats where
  mostCalledMethods : List MethodRank
  mostUsedServices : List ServiceRank
  largestClasses : List ClassRank
  filesByImports : List FileRank
deriving DecidableEq, Repr

/-- Interface-implementation report entry. -/
structure InterfaceImplementation where
  interfaceName : String
  implementedBy : List String
deriving DecidableEq, Repr

/-! ## AST-level input (data the scanner reads from the external ts-morph index) -/

/-- Data `collectClassInfo`/`scanMethod` read from a method declaration. -/
structure AstMethod where
  name : String
  line : Nat
  params : List ParamInfo
  returnType : String
  modifiers : List String
  decoratorNames : List String
  callTexts : List String
deriving DecidableEq, Repr

/-- Data read from a property declaration. -/
structure AstProperty where
  name : String
  line : Nat
  typeText : String
  modifiers : List String
  decoratorNames : List String
  initializerText : Option String
deriving DecidableEq, Repr

/-- Constructor parameter (name and optional declared type-node text). -/
structure AstCtorParam where
  name : String
  typeText : Option String
deriving DecidableEq, Repr

/-- Data read from a class declaration.  `componentDecorator` is `none` when the
class has no `Component` decorator, `some none` when it has one without
arguments, and `some (some txt)` when the first argument has text `txt`. -/
structure AstClass where
  name : Option String
  line : Nat
  exported : Bool
  extendsText : Option String
  implementsTexts : List String
  decoratorNames : List String
  componentDecorator : Option (Option String)
  methods : List AstMethod
  properties : List AstProperty
  ctorParams : Option (List AstCtorParam)
deriving DecidableEq, Repr

/-- Data read from a top-level function declaration.  `varInitTexts` lists the
descendant variable declarations (name and initializer text) that
`extractLocalInjections` walks. -/
structure AstFunction where
  name : Option String
  line : Nat
  params : List ParamInfo
  returnType : String
  callTexts : List String
  exported : Bool
  varInitTexts : List (String × Option String)
deriving DecidableEq, Repr

/-- Data read from a variable declaration whose initializer is an arrow
function or function expression. -/
structure AstVarFn where
  name : String
  line : Nat
  params : List ParamInfo
  returnType : String
  callTexts : List String
  exported : Bool
  varInitTexts : List (String × Option String)
deriving DecidableEq, Repr

/-- Data read from one source file. -/
structure AstFile where
  path : String
  relativeRaw : String
  imports : List ImportInfo
  exportDeclNames : List String
  classes : List AstClass
  functions : List AstFunction
  varFns : List AstVarFn
deriving DecidableEq, Repr

/-! ## Scanner state (the mutable instance maps of `ProjectScanner`) -/

/-- The six `Map` fields of the `ProjectScanner` instance. -/
structure ScannerState where
  callGraph : List (String × List String)
  reverseCallGraph : List (String × List String)
  classMethodsMap : List (String × List String)
  injectionMap : List (String × List (String × String))
  nestedInjectionMap : List (String × List (String × String))
  localInjectionMap : List (String × List (String × String))
deriving DecidableEq, Repr

/-- Fresh scanner state. -/
def ScannerState.empty : ScannerState := ⟨[], [], [], [], [], []⟩

/-- Reverse-graph insertion (`if (!g.has(k)) g.set(k, new Set()); g.get(k)!.add(c)`). -/
def edgeAdd (g : List (String × List String)) (k c : String) : List (String × List String) :=
  match mapGet g k with
  | none => g ++ [(k, setAdd [] c)]
  | some s => mapSet g k (setAdd s c)

/-- Boolean membership of the edge `(k, c)` in a graph map. -/
def edgeMemB (g : List (String × List String)) (k c : String) : Bool :=
  match mapGet g k with
  | none => false
  | some s => s.contains c

/-- The caller `c` is recorded under key `k`. -/
def EdgeMem (g : List (String × List String)) (k c : String) : Prop :=
  edgeMemB g k c = true

instance (g : List (String × List String)) (k c : String) : Decidable (EdgeMem g k c) :=
  inferInstanceAs (Decidable (edgeMemB g k c = true))

/-- State-passing `map` used to render the scanner's imperative loops. -/
def mapAccumState (f : σ → α → β × σ) : σ → List α → List β × σ
  | s, [] => ([], s)
  | s, x :: xs =>
    let r := f s x
    let rest := mapAccumState f r.2 xs
    (r.1 :: rest.1, rest.2)

/-! ## Pass 1: `collectClassInfo` -/

/-- One class of `collectClassInfo`'s loop body (scanner.ts:98-136), threading
the state and the local `classPropertiesMap`. -/
def collectClass (acc : ScannerState × List (String × List (String × String)))
    (cls : AstClass) : ScannerState × List (String × List (String × String)) :=
  match cls.name with
  | none => acc
  | some className =>
    let st := acc.1
    let methods := cls.methods.foldl (fun s m => setAdd s m.name) []
    let st := { st with classMethodsMap := mapSet st.classMethodsMap className methods }
    let injections := cls.properties.foldl (fun inj prop =>
      match findInjectBinding (prop.initializerText.getD "") with
      | some ty => mapSet inj prop.name ty
      | none => inj) ([] : List (String × String))
    let injections : List (String × String) := match cls.ctorParams with
      | none => injections
      | some ps => ps.foldl (fun inj p =>
          match p.typeText with
          | none => inj
          | some typeName =>
            if strEndsWith typeName "Service" || mapHas st.classMethodsMap typeName
            then mapSet inj p.name typeName else inj) injections
    if 0 < injections.length then
      ({ st with injectionMap := mapSet st.injectionMap className injections },
        mapSet acc.2 className injections)
    else (st, acc.2)

/-- `collectClassInfo` (scanner.ts:94-140). -/
def collectClassInfo (files : List AstFile) (st : ScannerState) : ScannerState :=
  let r := files.foldl (fun acc f => f.classes.foldl collectClass acc) (st, [])
  { r.1 with nestedInjectionMap := r.2 }

/-! ## Extraction (`scanFile` and helpers) -/

/-- `cleanType` (scanner.ts:310-313): `typeStr || 'any'`. -/
def cleanType (s : String) : String := if s = "" then "any" else s

/-- `extractCalls` (scanner.ts:402-415): normalize whitespace, drop empties,
deduplicate keeping first occurrences. -/
def extractCalls (texts : List String) : List String :=
  dedupFirst ((texts.map normalizeWs).filter (fun s => !(s == "")))

/-- `extractLocalInjections` (scanner.ts:417-432). -/
def extractLocalInjections (varDecls : List (String × Option String)) : List (String × String) :=
  varDecls.foldl (fun m vd =>
    match matchInjectAnchored (vd.2.getD "") with
    | some ty => mapSet m vd.1 ty
    | none => m) []

/-- `scanMethod` (scanner.ts:287-308): records the forward entry and one raw
reverse edge per extracted call text. -/
def scanMethod (st : ScannerState) (className : String) (m : AstMethod) :
    MethodInfo × ScannerState :=
  let methodName := m.name
  let fullName := className ++ "." ++ methodName
  let calls := extractCalls m.callTexts
  let st := { st with callGraph := mapSet st.callGraph fullName calls }
  let rev := calls.foldl (fun g call => edgeAdd g call fullName) st.reverseCallGraph
  let st := { st with reverseCallGraph := rev }
  ({ name := methodName, line := m.line, params := m.params,
     returnType := cleanType m.returnType, modifiers := m.modifiers,
     decorators := m.decoratorNames.map (fun d => "@" ++ d),
     calls := calls, calledBy := [], callChain := none }, st)

/-- `scanProperty` (scanner.ts:315-324). -/
def scanProperty (p : AstProperty) : PropertyInfo :=
  { name := p.name, line := p.line, type := cleanType p.typeText,
    modifiers := p.modifiers,
    decorators := p.decoratorNames.map (fun d => "@" ++ d),
    initializer := p.initializerText.map (strTake 100) }

/-- `scanClass` (scanner.ts:274-285). -/
def scanClass (st : ScannerState) (cls : AstClass) : ClassInfo × ScannerState :=
  let className := cls.name.getD "anonymous"
  let r := mapAccumState (fun st m => scanMethod st className m) st cls.methods
  ({ name := className, line := cls.line, extendsName := cls.extendsText,
     implementsList := cls.implementsTexts,
     decorators := cls.decoratorNames.map (fun d => "@" ++ d),
     methods := r.1, properties := cls.properties.map scanProperty }, r.2)

/-- `scanFunction` (scanner.ts:382-400). -/
def scanFunction (st : ScannerState) (fn : AstFunction) : FunctionInfo × ScannerState :=
  let fnName := fn.name.getD "anonymous"
  let calls := extractCalls fn.callTexts
  let st := { st with callGraph := mapSet st.callGraph fnName calls }
  let localInjections := extractLocalInjections fn.varInitTexts
  let st := if 0 < localInjections.length then
      { st with localInjectionMap := mapSet st.localInjectionMap fnName localInjections }
    else st
  ({ name := fnName, line := fn.line, params := fn.params,
     returnType := cleanType fn.returnType, calls := calls, exported := fn.exported }, st)

/-- Variable-bound branch of `getFunctions` (scanner.ts:333-377). -/
def scanVarFn (st : ScannerState) (v : AstVarFn) : FunctionInfo × ScannerState :=
  let fnName := v.name
  let calls := extractCalls v.callTexts
  let st := { st with callGraph := mapSet st.callGraph fnName calls }
  let localInjections := extractLocalInjections v.varInitTexts
  let st := if 0 < localInjections.length then
      { st with localInjectionMap := mapSet st.localInjectionMap fnName localInjections }
    else st
  ({ name := fnName, line := v.line, params := v.params,
     returnType := cleanType v.returnType, calls := calls, exported := v.exported }, st)

/-- `getFunctions` (scanner.ts:326-380): declared functions first, then
variable-bound ones. -/
def getFunctions (st : ScannerState) (f : AstFile) : List FunctionInfo × ScannerState :=
  let r1 := mapAccumState scanFunction st f.functions
  let r2 := mapAccumState scanVarFn r1.2 f.varFns
  (r1.1 ++ r2.1, r2.2)

/-- `getExports` (scanner.ts:262-268). -/
def getExports (f : AstFile) : List String :=
  f.exportDeclNames
    ++ (f.classes.filter (fun c => c.exported)).map (fun c => c.name.getD "anonymous")
    ++ (f.functions.filter (fun fn => fn.exported)).map (fun fn => fn.name.getD "anonymous")

/-- `scanFile` (scanner.ts:243-253). -/
def scanFile (st : ScannerState) (f : AstFile) : FileInfo × ScannerState :=
  let rc := mapAccumState scanClass st f.classes
  let rf := getFunctions rc.2 f
  ({ path := f.path, relativePath := replaceBackslash f.relativeRaw,
     imports := f.imports, exports := getExports f,
     classes := rc.1, functions := rf.1, templateBindings := [] }, rf.2)

/-! ## Template parsing (`parseAngularTemplate`, scanner.ts:462-487) -/

/-- Try `\(([^)]+)\)="([^"]+)"` at the current position. -/
def eventStepAt (s : List Char) : Option (TemplateBinding × List Char) :=
  (expectChar '(' s).bind fun r1 =>
  (takeUntil ')' r1).bind fun p1 =>
  (expectChar ')' p1.2).bind fun r2 =>
  (expectChar '=' r2).bind fun r3 =>
  (expectChar '"' r3).bind fun r4 =>
  (takeUntil '"' r4).bind fun p2 =>
  (expectChar '"' p2.2).map fun rest =>
  ({ type := "event", expression := String.mk p2.1 }, rest)

/-- Try `\[([^\]]+)\]="([^"]+)"` at the current position. -/
def propStepAt (s : List Char) : Option (TemplateBinding × List Char) :=
  (expectChar '[' s).bind fun r1 =>
  (takeUntil ']' r1).bind fun p1 =>
  (expectChar ']' p1.2).bind fun r2 =>
  (expectChar '=' r2).bind fun r3 =>
  (expectChar '"' r3).bind fun r4 =>
  (takeUntil '"' r4).bind fun p2 =>
  (expectChar '"' p2.2).map fun rest =>
  ({ type := "property", expression := String.mk p2.1 }, rest)

/-- Try `\{\{\s*([^}]+)\s*\}\}` at the current position.  The engine's
backtracking between `\s*` and `[^}]+` only moves whitespace between the
capture's ends, and the scanner applies `trim()` to the capture, so matching
the maximal brace-free run and trimming is equivalent. -/
def interpStepAt (s : List Char) : Option (TemplateBinding × List Char) :=
  (dropLit "\x7b\x7b".toList s).bind fun r1 =>
  (takeUntil '\x7d' r1).bind fun p1 =>
  (dropLit "\x7d\x7d".toList p1.2).map fun rest =>
  ({ type := "interpolation", expression := jsTrim (String.mk p1.1) }, rest)

/-- Alternation head of the structural-binding pattern. -/
def structuralKeywords : List String := ["*ngIf", "*ngFor", "@if", "@for", "@switch"]

/-- First alternative whose literal matches at the current position. -/
def dropAnyLit : List String → List Char → Option (List Char)
  | [], _ => none
  | k :: ks, s =>
    match dropLit k.toList s with
    | some r => some r
    | none => dropAnyLit ks s

/-- Try `(\*ngIf|\*ngFor|@if|@for|@switch)(?:="([^"]+)"|\s*\(([^)]+)\))` at the
current position; the stored expression is `match[2] || match[3] || ''`. -/
def structuralStepAt (s : List Char) : Option (TemplateBinding × List Char) :=
  (dropAnyLit structuralKeywords s).bind fun r1 =>
  match (expectChar '=' r1).bind (fun r2 =>
      (expectChar '"' r2).bind fun r3 =>
      (takeUntil '"' r3).bind fun p =>
      (expectChar '"' p.2).map fun rest => (String.mk p.1, rest)) with
  | some pr => some ({ type := "structural", expression := pr.1 }, pr.2)
  | none =>
    (expectChar '(' (skipSpaces r1)).bind fun r2 =>
    (takeUntil ')' r2).bind fun p =>
    (expectChar ')' p.2).map fun rest =>
    ({ type := "structural", expression := String.mk p.1 }, rest)

/-- Global-regex `exec` loop: repeatedly take the leftmost match, restarting
after each match's end.  The fuel is the input length; every step of the loop
advances by at least one character. -/
def scanAllAux (step : List Char → Option (TemplateBinding × List Char)) :
    Nat → List Char → List TemplateBinding
  | 0, _ => []
  | _ + 1, [] => []
  | fuel + 1, c :: cs =>
    match step (c :: cs) with
    | some r => r.1 :: scanAllAux step fuel r.2
    | none => scanAllAux step fuel cs

/-- Run one global pattern over a template string. -/
def scanAll (step : List Char → Option (TemplateBinding × List Char)) (s : String) :
    List TemplateBinding :=
  scanAllAux step s.toList.length s.toList

/-- `parseAngularTemplate` (scanner.ts:462-487): the four global patterns in
source order, results concatenated. -/
def parseAngularTemplate (template : String) : List TemplateBinding :=
  scanAll eventStepAt template ++ scanAll propStepAt template
    ++ scanAll interpStepAt template ++ scanAll structuralStepAt template

/-- Character class `['"]`. -/
def quoteChar (c : Char) : Bool := c == '\'' || c == '"'

/-- Try `templateUrl:\s*['"]([^'"]+)['"]` at the current position. -/
def matchTemplateUrlAt (s : List Char) : Option String :=
  (dropLit "templateUrl:".toList s).bind fun r1 =>
  match skipSpaces r1 with
  | [] => none
  | q :: rest =>
    if quoteChar q then
      let w := rest.takeWhile (fun c => !(quoteChar c))
      if w.isEmpty then none
      else match rest.dropWhile (fun c => !(quoteChar c)) with
        | [] => none
        | _ :: _ => some (String.mk w)
    else none

/-- Unanchored search for the `templateUrl` pattern (scanner.ts:446). -/
def findTemplateUrlAux : List Char → Option String
  | [] => none
  | c :: cs =>
    match matchTemplateUrlAt (c :: cs) with
    | some r => some r
    | none => findTemplateUrlAux cs

/-- Leftmost `templateUrl` capture of a decorator-argument text. -/
def findTemplateUrl (s : String) : Option String := findTemplateUrlAux s.toList

/-- Try the inline-template pattern at the current position (backquote-fenced,
capture may be empty). -/
def matchInlineTemplateAt (s : List Char) : Option String :=
  (dropLit "template:".toList s).bind fun r1 =>
  (expectChar '\x60' (skipSpaces r1)).bind fun r2 =>
  let w := r2.takeWhile (fun c => !(c == '\x60'))
  (expectChar '\x60' (r2.dropWhile (fun c => !(c == '\x60')))).map fun _ =>
  String.mk w

/-- Unanchored search for the inline-template pattern (scanner.ts:454). -/
def findInlineTemplateAux : List Char → Option String
  | [] => none
  | c :: cs =>
    match matchInlineTemplateAt (c :: cs) with
    | some r => some r
    | none => findInlineTemplateAux cs

/-- Leftmost inline-template capture of a decorator-argument text. -/
def findInlineTemplate (s : String) : Option String := findInlineTemplateAux s.toList

/-- `scanAngularTemplate` (scanner.ts:434-460).  `resolveTemplate` stands for
`path.resolve(path.dirname(filePath), url)` followed by `fs.existsSync` and
`fs.readFileSync` — it yields the template file's content when the resolved
file exists. -/
def scanAngularTemplate (resolveTemplate : String → String → Option String)
    (f : AstFile) : List TemplateBinding :=
  f.classes.foldl (fun bindings cls =>
    match cls.componentDecorator with
    | none => bindings
    | some none => bindings
    | some (some argsText) =>
      let b1 := match findTemplateUrl argsText with
        | some url =>
          match resolveTemplate f.path url with
          | some content => parseAngularTemplate content
          | none => []
        | none => []
      let b2 := match findInlineTemplate argsText with
        | some tmpl => parseAngularTemplate tmpl
        | none => []
      bindings ++ b1 ++ b2) []

/-- `addTemplateBindingsToCallGraph` (scanner.ts:489-501): every binding whose
expression contains a call-like substring contributes an edge attributed to the
file's first class. -/
def addTemplateBindingsToCallGraph (st : ScannerState) (fi : FileInfo)
    (bindings : List TemplateBinding) : ScannerState :=
  match fi.classes.head? with
  | none => st
  | some cls0 =>
    let rev := bindings.foldl (fun g b =>
      match findMethodName b.expression with
      | some n => edgeAdd g (cls0.name ++ "." ++ n) ("template:" ++ fi.relativePath)
      | none => g) st.reverseCallGraph
    { st with reverseCallGraph := rev }

/-! ## Pass 2: `resolveCrossFileCalls` (scanner.ts:142-241) -/

/-- Rule 1 (scanner.ts:154-167): `this.<id>.<method>` through the owning
class's binding map, skipped when `<method>` is itself a bound property of the
target class. -/
def resolveSimpleRule (injections : List (String × String))
    (nestedMap : List (String × List (String × String))) (call : String) : Option String :=
  match matchSimpleCall call with
  | none => none
  | some pr =>
    match mapGet injections pr.1 with
    | none => none
    | some serviceClass =>
      match mapGet nestedMap serviceClass with
      | some nestedProps =>
        if mapHas nestedProps pr.2 then none
        else some (serviceClass ++ "." ++ pr.2)
      | none => some (serviceClass ++ "." ++ pr.2)

/-- Rule 2 (scanner.ts:169-185): `this.<id>.<nested>.<method>` through two
binding maps. -/
def resolveNestedRule (injections : List (String × String))
    (nestedMap : List (String × List (String × String))) (call : String) : Option String :=
  match matchNestedCall call with
  | none => none
  | some pr =>
    (mapGet injections pr.1).bind fun serviceClass =>
    (mapGet nestedMap serviceClass).bind fun nestedInjections =>
    (mapGet nestedInjections pr.2.1).map fun nestedServiceClass =>
    nestedServiceClass ++ "." ++ pr.2.2

/-- Rule 3 (scanner.ts:187-194 and :213-220): inline `inject(Type).<method>`,
accepted when `Type` is a known class. -/
def resolveInjectRule (classMethods : List (String × List String)) (call : String) :
    Option String :=
  match findInjectCall call with
  | none => none
  | some pr =>
    if mapHas classMethods pr.1 then some (pr.1 ++ "." ++ pr.2) else none

/-- Rule 4 (scanner.ts:222-230): bare `<id>.<method>` through a free
function's local binding map. -/
def resolveLocalVarRule (localInjections : List (String × String))
    (classMethods : List (String × List String)) (call : String) : Option String :=
  match matchLocalVarCall call with
  | none => none
  | some pr =>
    match mapGet localInjections pr.1 with
    | none => none
    | some serviceClass =>
      if mapHas classMethods serviceClass then some (serviceClass ++ "." ++ pr.2) else none

/-- The class-method branch's per-call resolution (scanner.ts:151-195): the
`resolvedCall` variable is overwritten by each later rule that succeeds. -/
def resolveClassCall (injections : List (String × String))
    (nestedMap : List (String × List (String × String)))
    (classMethods : List (String × List String)) (call : String) : Option String :=
  let resolved : Option String := none
  let resolved := match resolveSimpleRule injections nestedMap call with
    | some r => some r
    | none => resolved
  let resolved := match resolveNestedRule injections nestedMap call with
    | some r => some r
    | none => resolved
  let resolved := match resolveInjectRule classMethods call with
    | some r => some r
    | none => resolved
  resolved

/-- The free-function branch's per-call resolution (scanner.ts:210-230): the
local-variable rule only runs when the inject rule did not resolve. -/
def resolveFnCall (localInjections : List (String × String))
    (classMethods : List (String × List String)) (call : String) : Option String :=
  match resolveInjectRule classMethods call with
  | some r => some r
  | none => resolveLocalVarRule localInjections classMethods call

/-- `resolveCrossFileCalls` (scanner.ts:142-241).  The loops only ever assign
into `reverseCallGraph`; every map read (`injectionMap`, `nestedInjectionMap`,
`classMethodsMap`, `localInjectionMap`) sees the state the method was entered
with, since nothing in the method writes to those maps. -/
def resolveCrossFileCalls (fileInfos : List FileInfo) (st : ScannerState) : ScannerState :=
  let rev := fileInfos.foldl (fun rev fi =>
    let rev := fi.classes.foldl (fun rev cls =>
      let injections := (mapGet st.injectionMap cls.name).getD []
      cls.methods.foldl (fun rev m =>
        let callerFullName := cls.name ++ "." ++ m.name
        m.calls.foldl (fun rev call =>
          match resolveClassCall injections st.nestedInjectionMap st.classMethodsMap call with
          | some r => edgeAdd rev r callerFullName
          | none => rev) rev) rev) rev
    fi.functions.foldl (fun rev fn =>
      let localInjections := (mapGet st.localInjectionMap fn.name).getD []
      fn.calls.foldl (fun rev call =>
        match resolveFnCall localInjections st.classMethodsMap call with
        | some r => edgeAdd rev r ("function:" ++ fn.name)
        | none => rev) rev) rev) st.reverseCallGraph
  { st with reverseCallGraph := rev }

/-- `buildCallGraph` (scanner.ts:503-512): the one `calledBy` back-fill. -/
def buildCallGraph (rg : List (String × List String)) (fileInfos : List FileInfo) :
    List FileInfo :=
  fileInfos.map fun fi =>
    { fi with classes := fi.classes.map fun cls =>
      { cls with methods := cls.methods.map fun m =>
        match mapGet rg (cls.name ++ "." ++ m.name) with
        | some callers => { m with calledBy := callers }
        | none => m } }

/-! ## Analyzers -/

/-- The fixed allow-list of `detectDeadCode` (scanner.ts:544-549). -/
def lifecycleHooks : List String :=
  ["ngOnInit", "ngOnDestroy", "ngOnChanges", "ngDoCheck",
   "ngAfterContentInit", "ngAfterContentChecked",
   "ngAfterViewInit", "ngAfterViewChecked",
   "constructor", "canActivate", "canDeactivate", "resolve"]

/-- Method case of `detectDeadCode` (scanner.ts:553-567). -/
def deadMethodItem (file : FileInfo) (cls : ClassInfo) (m : MethodInfo) :
    Option DeadCodeItem :=
  if m.calledBy.length = 0 then
    if m.name ∈ lifecycleHooks then none
    else if strStartsWith m.name "_" ∧ "private" ∈ m.modifiers then none
    else some { type := "method", name := m.name,
                fullName := cls.name ++ "." ++ m.name,
                file := file.relativePath, line := m.line,
                reason := "No callers found" }
  else none

/-- Function case of `detectDeadCode` (scanner.ts:570-584). -/
def deadFunctionItem (rg : List (String × List String)) (file : FileInfo)
    (fn : FunctionInfo) : Option DeadCodeItem :=
  let noCallers := match mapGet rg fn.name with
    | none => true
    | some callers => callers.isEmpty
  if noCallers then
    if fn.exported then none
    else some { type := "function", name := fn.name, fullName := fn.name,
                file := file.relativePath, line := fn.line,
                reason := "No callers found and not exported" }
  else none

/-- `detectDeadCode` (scanner.ts:542-588). -/
def detectDeadCode (rg : List (String × List String)) (fileInfos : List FileInfo) :
    List DeadCodeItem :=
  fileInfos.foldr (fun file acc =>
    (file.classes.foldr (fun cls acc2 =>
      cls.methods.filterMap (deadMethodItem file cls) ++ acc2) [])
      ++ file.functions.filterMap (deadFunctionItem rg file) ++ acc) []

/-- Ancestor-method union of `analyzeInheritance` (scanner.ts:602-618), with
fuel standing in for the visited-set termination argument. -/
def getAllAncestorMethods (methodsCache : List (String × List String))
    (extendsCache : List (String × Option String)) :
    Nat → String → List String → List String
  | 0, _, _ => []
  | fuel + 1, className, visited =>
    match mapGet extendsCache className with
    | none => []
    | some none => []
    | some (some parentName) =>
      if parentName ∈ visited then []
      else
        let visited := visited ++ [parentName]
        let fromParent := (mapGet methodsCache parentName).getD []
        let all := fromParent.foldl setAdd []
        let grand := getAllAncestorMethods methodsCache extendsCache fuel parentName visited
        grand.foldl setAdd all

/-- `analyzeInheritance` (scanner.ts:590-649). -/
def analyzeInheritance (fileInfos : List FileInfo) : List InheritanceInfo :=
  let methodsCache := fileInfos.foldl (fun m fi => fi.classes.foldl (fun m cls =>
    mapSet m cls.name (cls.methods.foldl (fun s me => setAdd s me.name) [])) m) []
  let extendsCache := fileInfos.foldl (fun m fi => fi.classes.foldl (fun m cls =>
    mapSet m cls.name cls.extendsName) m) []
  let fuel := extendsCache.length + 1
  fileInfos.foldr (fun fi acc =>
    fi.classes.filterMap (fun cls =>
      match cls.extendsName with
      | none => none
      | some ext =>
        let allAncestorMethods := getAllAncestorMethods methodsCache extendsCache fuel cls.name []
        if allAncestorMethods.isEmpty then none
        else
          let childMethods := cls.methods.map (fun m => m.name)
          let part := allAncestorMethods.partition (fun m => m ∈ childMethods)
          some { className := cls.name, extendsName := ext,
                 inheritedMethods := part.2, overriddenMethods := part.1 }) ++ acc) []

/-- `resolveImportPath`'s `./..` walk plus extension probing (scanner.ts:706-729).
`projectFiles` models `this.project.getSourceFile(f => ...)` over the added
source-file paths. -/
def resolveImportPath (projectFiles : List String) (fromFile importPath : String) :
    Option String :=
  let fromDir := jsSubstringToLastSlash fromFile
  let parts := jsSplit importPath '/' 
  let currentPath := parts.foldl (fun cur part =>
    if part = "." then cur
    else if part = ".." then jsSubstringToLastSlash cur
    else if cur = "" then part else cur ++ "/" ++ part) fromDir
  let extList := [".ts", ".tsx", ".js", ".jsx", "/index.ts", "/index.js"]
  match extList.find? (fun ext =>
      projectFiles.any (fun f => strEndsWith (replaceBackslash f) (currentPath ++ ext))) with
  | some ext =>
    some (currentPath ++ (if strStartsWith ext "/" then ext
      else jsReplaceOnce (jsReplaceOnce ext ".ts" ".ts") ".js" ".ts"))
  | none =>
    if strEndsWith currentPath ".ts" || strEndsWith currentPath ".js" then some currentPath
    else none

/-- The relative-import graph of `detectCircularDependencies` (scanner.ts:653-664). -/
def buildImportGraph (projectFiles : List String) (fileInfos : List FileInfo) :
    List (String × List String) :=
  fileInfos.foldl (fun g fi =>
    let deps := fi.imports.foldl (fun deps imp =>
      if strStartsWith imp.module "." then
        match resolveImportPath projectFiles fi.relativePath imp.module with
        | some r => setAdd deps r
        | none => deps
      else deps) []
    mapSet g fi.relativePath deps) []

/-- Mutable state of the cycle-detecting depth-first search. -/
structure DfsState where
  visited : List String
  recStack : List String
  cycles : List CircularDependency
deriving DecidableEq, Repr

/-- Deduplication key `[...cycle].sort().join('->')` (scanner.ts:683). -/
def cycleKey (cyc : List String) : String := String.intercalate "->" (jsSortStrings cyc)

/-- Cycle extraction (scanner.ts:679-681): the path suffix from the back
edge's target, closed with that target. -/
def dfsCycleOf (path : List String) (dep : String) : List String :=
  let cycleStart := jsIndexOf path dep
  (if 0 ≤ cycleStart then path.drop cycleStart.toNat else path ++ [dep]) ++ [dep]

/-- Key-deduplicated recording (scanner.ts:683-689): the cycle is pushed only
when no recorded cycle has the same sorted-joined key. -/
def dfsPushCycle (cyc : List String) (s : DfsState) : DfsState :=
  if s.cycles.any (fun c => cycleKey c.cycle == cycleKey cyc) then s
  else { s with cycles := s.cycles ++
    [{ cycle := cyc, description := "Circular: " ++ String.intercalate " -> " cyc }] }

/-- The back-edge handling of the `dfs` loop body. -/
def dfsRecordCycle (path : List String) (dep : String) (s : DfsState) : DfsState :=
  dfsPushCycle (dfsCycleOf path dep) s

/-- The recursive `dfs` of `detectCircularDependencies` (scanner.ts:669-695).
The fuel bounds the recursion depth; one unit is consumed per nested call, and
every nested call is on a previously unvisited node, so any fuel larger than
the node count is enough. -/
def dfsVisit (graph : List (String × List String)) :
    Nat → String → List String → DfsState → DfsState
  | 0, _, _, s => s
  | fuel + 1, node, path, s =>
    let s := { s with visited := setAdd s.visited node, recStack := setAdd s.recStack node }
    let deps := (mapGet graph node).getD []
    let s := deps.foldl (fun s dep =>
      if dep ∈ s.visited then
        if dep ∈ s.recStack then dfsRecordCycle path dep s
        else s
      else dfsVisit graph fuel dep (path ++ [dep]) s) s
    { s with recStack := s.recStack.filter (fun x => !(x == node)) }

/-- `detectCircularDependencies` (scanner.ts:651-704). -/
def detectCircularDependencies (projectFiles : List String) (fileInfos : List FileInfo) :
    List CircularDependency :=
  let importGraph := buildImportGraph projectFiles fileInfos
  let s := importGraph.foldl (fun s kv =>
    if kv.1 ∈ s.visited then s
    else dfsVisit importGraph (importGraph.length + 1) kv.1 [kv.1] s)
    { visited := [], recStack := [], cycles := [] }
  s.cycles

/-- `generateSummary` (scanner.ts:731-796). -/
def generateSummary (injectionMap : List (String × List (String × String)))
    (fileInfos : List FileInfo) : SummaryStats :=
  let methodCallCounts := fileInfos.foldl (fun m fi => fi.classes.foldl (fun m cls =>
    cls.methods.foldl (fun m meth =>
      mapSet m (cls.name ++ "." ++ meth.name) meth.calledBy.length) m) m)
    ([] : List (String × Nat))
  let serviceUsageCounts := fileInfos.foldl (fun m fi => fi.classes.foldl (fun m cls =>
    if cls.decorators.any (fun d => strContainsSub d "Injectable" || strContainsSub d "Service")
    then mapSet m cls.name 0 else m) m) ([] : List (String × Nat))
  let serviceUsageCounts := fileInfos.foldl (fun m fi => fi.classes.foldl (fun m cls =>
    cls.methods.foldl (fun m meth => meth.calls.foldl (fun m call =>
      match findServiceAccess call with
      | some propName =>
        match mapGet injectionMap cls.name with
        | some injections =>
          match mapGet injections propName with
          | some serviceName =>
            if mapHas m serviceName then mapSet m serviceName ((mapGet m serviceName).getD 0 + 1)
            else m
          | none => m
        | none => m
      | none => m) m) m) m) serviceUsageCounts
  let mostCalledMethods :=
    ((sortDescBy (fun p => p.2) (methodCallCounts.filter (fun p => decide (0 < p.2)))).take 10).map
      (fun p => MethodRank.mk p.1 p.2)
  let mostUsedServices :=
    ((sortDescBy (fun p => p.2) (serviceUsageCounts.filter (fun p => decide (0 < p.2)))).take 10).map
      (fun p => ServiceRank.mk p.1 p.2)
  let largestClasses :=
    (sortDescBy (fun c : ClassRank => c.methodCount)
      (fileInfos.foldr (fun f acc =>
        f.classes.map (fun c => ClassRank.mk c.name c.methods.length f.relativePath) ++ acc) [])).take 10
  let filesByImports :=
    (sortDescBy (fun fr : FileRank => fr.importCount)
      (fileInfos.map (fun f => FileRank.mk f.relativePath f.imports.length))).take 10
  { mostCalledMethods := mostCalledMethods, mostUsedServices := mostUsedServices,
    largestClasses := largestClasses, filesByImports := filesByImports }

/-- Generic-argument stripping `iface.replace(/<.*>/, '').trim()` of
`analyzeInterfaceImplementations` (scanner.ts:860): leftmost `<` that is
followed by a `>` on the same line, greedy to the last such `>`. -/
def replaceAngleAux : List Char → Option (List Char)
  | [] => none
  | c :: cs =>
    if c == '<' then
      let run := cs.takeWhile (fun d => !(d == '\n' || d == '\r'))
      if '>' ∈ run then
        some ((run.reverse.takeWhile (fun d => !(d == '>'))).reverse ++ cs.drop run.length)
      else (replaceAngleAux cs).map (fun r => c :: r)
    else (replaceAngleAux cs).map (fun r => c :: r)

/-- Interface-name cleanup of `analyzeInterfaceImplementations`. -/
def stripGenericArgs (s : String) : String :=
  jsTrim (match replaceAngleAux s.toList with
    | some r => String.mk r
    | none => s)

/-- `analyzeInterfaceImplementations` (scanner.ts:854-875). -/
def analyzeInterfaceImplementations (fileInfos : List FileInfo) :
    List InterfaceImplementation :=
  let interfaceMap := fileInfos.foldl (fun m fi => fi.classes.foldl (fun m cls =>
    cls.implementsList.foldl (fun m iface =>
      let cleanName := stripGenericArgs iface
      match mapGet m cleanName with
      | some s => mapSet m cleanName (setAdd s cls.name)
      | none => mapSet m cleanName (setAdd [] cls.name)) m) m)
    ([] : List (String × List String))
  sortDescBy (fun x : InterfaceImplementation => x.implementedBy.length)
    (interfaceMap.map (fun kv => { interfaceName := kv.1, implementedBy := kv.2 }))

/-- The bounded backward expansion `getCallChain` (scanner.ts:810-837). -/
def getCallChain (rg : List (String × List String)) :
    Nat → String → List String → List (List String)
  | 0, _, _ => []
  | depth + 1, methodName, visited =>
    if methodName ∈ visited then []
    else
      let visited := visited ++ [methodName]
      match mapGet rg methodName with
      | none => [[methodName]]
      | some callers =>
        if callers.isEmpty then [[methodName]]
        else callers.foldl (fun chains caller =>
          if strStartsWith caller "template:" then chains ++ [[caller, methodName]]
          else
            let parentChains := getCallChain rg depth caller visited
            if parentChains.isEmpty then chains ++ [[caller, methodName]]
            else chains ++ parentChains.map (fun chain => chain ++ [methodName])) []

/-- `buildCallChains` (scanner.ts:798-852): assigns `callChain` on methods with
at least one caller.  The locally built forward-to-reverse map of
scanner.ts:799-808 is computed but never consulted afterwards. -/
def buildCallChains (callGraph rg : List (String × List String))
    (fileInfos : List FileInfo) (maxDepth : Nat) : List FileInfo :=
  let _reverseGraph := callGraph.foldl (fun g kv =>
    kv.2.foldl (fun g call => edgeAdd g call kv.1) g) ([] : List (String × List String))
  fileInfos.map fun fi =>
    { fi with classes := fi.classes.map fun cls =>
      { cls with methods := cls.methods.map fun m =>
        let fullName := cls.name ++ "." ++ m.name
        if 0 < m.calledBy.length then
          let chains := getCallChain rg maxDepth fullName []
          if 0 < chains.length ∧ chains.any (fun c => decide (1 < c.length)) then
            { m with callChain := some ((chains.filter (fun c => decide (1 < c.length))).take 5) }
          else m
        else m } }

/-! ## The `scan` orchestration (scanner.ts:31-92) -/

/-- External inputs of one scan: the discovered files in glob order, the
configured framework, and the template-file oracle. -/
structure ScanInput where
  configPath : String
  framework : Option String
  files : List AstFile
  resolveTemplate : String → String → Option String

/-- Everything `scan` computes that the claims talk about: the final file
model, the final instance state and the five derived reports. -/
structure ScanModel where
  files : List FileInfo
  st : ScannerState
  deadCode : List DeadCodeItem
  inheritance : List InheritanceInfo
  circularDependencies : List CircularDependency
  summary : SummaryStats
  interfaceImplementations : List InterfaceImplementation

/-- The per-file loop of `scan` (scanner.ts:46-58): extraction interleaved
with the template pass for the angular framework. -/
def scanFileStep (framework : Option String)
    (resolveTemplate : String → String → Option String)
    (acc : List FileInfo × ScannerState) (f : AstFile) : List FileInfo × ScannerState :=
  let rf := scanFile acc.2 f
  let fi := rf.1
  if framework = some "angular" then
    let templateBindings := scanAngularTemplate resolveTemplate f
    if 0 < templateBindings.length then
      let fi := { fi with templateBindings := templateBindings }
      (acc.1 ++ [fi], addTemplateBindingsToCallGraph rf.2 fi templateBindings)
    else (acc.1 ++ [fi], rf.2)
  else (acc.1 ++ [fi], rf.2)

def scanFilesLoop (input : ScanInput) (st : ScannerState) : List FileInfo × ScannerState :=
  input.files.foldl (scanFileStep input.framework input.resolveTemplate)
    (([] : List FileInfo), st)

/-- `scan` (scanner.ts:31-92), without the purely presentational tree/meta
parts. -/
def scan (input : ScanInput) : ScanModel :=
  let st0 := collectClassInfo input.files ScannerState.empty
  let r := scanFilesLoop input st0
  let st := resolveCrossFileCalls r.1 r.2
  let fileInfos := buildCallGraph st.reverseCallGraph r.1
  let deadCode := detectDeadCode st.reverseCallGraph fileInfos
  let inheritance := analyzeInheritance fileInfos
  let circularDependencies := detectCircularDependencies (input.files.map (fun f => f.path)) fileInfos
  let summary := generateSummary st.injectionMap fileInfos
  let interfaceImplementations := analyzeInterfaceImplementations fileInfos
  let filesAfterChains := buildCallChains st.callGraph st.reverseCallGraph fileInfos 3
  { files := filesAfterChains, st := st, deadCode := deadCode, inheritance := inheritance,
    circularDependencies := circularDependencies, summary := summary,
    interfaceImplementations := interfaceImplementations }

/-- The extracted file models as they stand after the per-file loop (before the
`calledBy` back-fill and the `callChain` pass touch them). -/
def scanExtractedFiles (input : ScanInput) : List FileInfo :=
  (scanFilesLoop input (collectClassInfo input.files ScannerState.empty)).1

/-! ## Edge-source predicates (the three ways a reverse edge can arise) -/

/-- A raw call-text edge of one file recorded by `scanMethod`: key is the
extracted call text, caller is the class-qualified method name. -/
def FileRawEdge (fi : FileInfo) (k c : String) : Prop :=
  ∃ cls ∈ fi.classes, ∃ m ∈ cls.methods, k ∈ m.calls ∧ c = cls.name ++ "." ++ m.name

instance (fi : FileInfo) (k c : String) : Decidable (FileRawEdge fi k c) := by
  unfold FileRawEdge
  infer_instance

/-- A template-synthesized edge of one file recorded by
`addTemplateBindingsToCallGraph`. -/
def FileTemplateEdge (fi : FileInfo) (k c : String) : Prop :=
  ∃ b ∈ fi.templateBindings,
    (fi.classes.head?).bind
      (fun cls0 => (findMethodName b.expression).map (fun n => cls0.name ++ "." ++ n)) = some k ∧
    c = "template:" ++ fi.relativePath

instance (fi : FileInfo) (k c : String) : Decidable (FileTemplateEdge fi k c) := by
  unfold FileTemplateEdge
  infer_instance

/-- A raw call-text edge recorded by `scanMethod`. -/
def MethodRawEdge (files : List FileInfo) (k c : String) : Prop :=
  ∃ fi ∈ files, FileRawEdge fi k c

instance (files : List FileInfo) (k c : String) : Decidable (MethodRawEdge files k c) := by
  unfold MethodRawEdge
  infer_instance

/-- A template-synthesized edge recorded by `addTemplateBindingsToCallGraph`. -/
def TemplateEdge (files : List FileInfo) (k c : String) : Prop :=
  ∃ fi ∈ files, FileTemplateEdge fi k c

instance (files : List FileInfo) (k c : String) : Decidable (TemplateEdge files k c) := by
  unfold TemplateEdge
  infer_instance

/-- An injection-resolved edge recorded by `resolveCrossFileCalls`, from either
the class-method branch or the free-function branch. -/
def ResolvedEdge (st : ScannerState) (files : List FileInfo) (k c : String) : Prop :=
  (∃ fi ∈ files, ∃ cls ∈ fi.classes, ∃ m ∈ cls.methods, ∃ call ∈ m.calls,
    resolveClassCall ((mapGet st.injectionMap cls.name).getD []) st.nestedInjectionMap
      st.classMethodsMap call = some k ∧ c = cls.name ++ "." ++ m.name) ∨
  (∃ fi ∈ files, ∃ fn ∈ fi.functions, ∃ call ∈ fn.calls,
    resolveFnCall ((mapGet st.localInjectionMap fn.name).getD []) st.classMethodsMap call = some k ∧
    c = "function:" ++ fn.name)

instance (st : ScannerState) (files : List FileInfo) (k c : String) :
    Decidable (ResolvedEdge st files k c) := by
  unfold ResolvedEdge
  infer_instance

/-- Some class method's raw extracted call texts contain `k` — the only way a
dead-code lookup of a bare (dot-free) name can find callers. -/
def RawKeyUsed (files : List FileInfo) (k : String) : Prop :=
  ∃ fi ∈ files, ∃ cls ∈ fi.classes, ∃ m ∈ cls.methods, k ∈ m.calls

instance (files : List FileInfo) (k : String) : Decidable (RawKeyUsed files k) := by
  unfold RawKeyUsed
  infer_instance

/-- An identifier-shaped string: nonempty and made of `\w` characters only. -/
def WordStr (s : String) : Prop :=
  s.toList ≠ [] ∧ ∀ ch ∈ s.toList, wordChar ch = true

instance (s : String) : Decidable (WordStr s) :=
  inferInstanceAs (Decidable (_ ∧ _))

/-- The forward-graph writes contributed by one class, in scan order. -/
def classEntries (ci : ClassInfo) : List (String × List String) :=
  ci.methods.map (fun mi => (ci.name ++ "." ++ mi.name, mi.calls))

/-- The forward-graph writes contributed by one file, in scan order: the
class-method entries, then the free-function entries. -/
def fileEntries (fi : FileInfo) : List (String × List String) :=
  fi.classes.foldl (fun acc cls => acc ++ classEntries cls) []
    ++ fi.functions.map (fun fn => (fn.name, fn.calls))

/-- The forward-graph writes of the extraction pass, in scan order. -/
def forwardEntries (files : List FileInfo) : List (String × List String) :=
  files.foldl (fun acc fi => acc ++ fileEntries fi) []

/-- The last value written for key `k` by an in-order entry list. -/
def lastAssoc (ps : List (String × α)) (k : String) : Option α :=
  match ps with
  | [] => none
  | p :: rest =>
    match lastAssoc rest k with
    | some v => some v
    | none => if p.1 = k then some p.2 else none

/-! ## Pure views of the extraction outputs

`scanMethod` through `scanFile` return their info records independently of the
threaded state; these state-free forms make that explicit. -/

/-- The `MethodInfo` produced by `scanMethod`. -/
def methodInfoOf (_className : String) (m : AstMethod) : MethodInfo :=
  { name := m.name, line := m.line, params := m.params,
    returnType := cleanType m.returnType, modifiers := m.modifiers,
    decorators := m.decoratorNames.map (fun d => "@" ++ d),
    calls := extractCalls m.callTexts, calledBy := [], callChain := none }

/-- The `ClassInfo` produced by `scanClass`. -/
def classInfoOf (cls : AstClass) : ClassInfo :=
  { name := cls.name.getD "anonymous", line := cls.line, extendsName := cls.extendsText,
    implementsList := cls.implementsTexts,
    decorators := cls.decoratorNames.map (fun d => "@" ++ d),
    methods := cls.methods.map (methodInfoOf (cls.name.getD "anonymous")),
    properties := cls.properties.map scanProperty }

/-- The `FunctionInfo` produced by `scanFunction`. -/
def functionInfoOf (fn : AstFunction) : FunctionInfo :=
  { name := fn.name.getD "anonymous", line := fn.line, params := fn.params,
    returnType := cleanType fn.returnType, calls := extractCalls fn.callTexts,
    exported := fn.exported }

/-- The `FunctionInfo` produced by `scanVarFn`. -/
def varFnInfoOf (v : AstVarFn) : FunctionInfo :=
  { name := v.name, line := v.line, params := v.params,
    returnType := cleanType v.returnType, calls := extractCalls v.callTexts,
    exported := v.exported }

/-- The `FileInfo` produced by `scanFile`. -/
def fileInfoOf (f : AstFile) : FileInfo :=
  { path := f.path, relativePath := replaceBackslash f.relativeRaw,
    imports := f.imports, exports := getExports f,
    classes := f.classes.map classInfoOf,
    functions := f.functions.map functionInfoOf ++ f.varFns.map varFnInfoOf,
    templateBindings := [] }

/-- The `FileInfo` a file contributes to the per-file loop's accumulator,
template pass included. -/
def scannedFileInfo (framework : Option String)
    (resolveTemplate : String → String → Option String) (f : AstFile) : FileInfo :=
  if framework = some "angular" then
    let templateBindings := scanAngularTemplate resolveTemplate f
    if 0 < templateBindings.length then
      { fileInfoOf f with templateBindings := templateBindings }
    else fileInfoOf f
  else fileInfoOf f

/-! ## Frame masks for the post-resolution passes -/

/-- Forget the one field `buildCallGraph` writes. -/
def eraseCalled (fi : FileInfo) : FileInfo :=
  { fi with classes := fi.classes.map (fun cls =>
    { cls with methods := cls.methods.map (fun m => { m with calledBy := [] }) }) }

/-- Forget the one field `buildCallChains` writes. -/
def eraseChains (fi : FileInfo) : FileInfo :=
  { fi with classes := fi.classes.map (fun cls =>
    { cls with methods := cls.methods.map (fun m => { m with callChain := none }) }) }

/-! ## Concrete scenario inputs for counterexamples and witnesses -/

/-- First file of the C1 scenario: class `A` with method `m` calling `x()`. -/
def cx1File1 : AstFile :=
  { path := "/p/a1.ts", relativeRaw := "a1.ts", imports := [], exportDeclNames := [],
    classes := [
      { name := some "A", line := 1, exported := false, extendsText := none,
        implementsTexts := [], decoratorNames := [], componentDecorator := none,
        methods := [
          { name := "m", line := 2, params := [], returnType := "void", modifiers := [],
            decoratorNames := [], callTexts := ["x"] }],
        properties := [], ctorParams := none }],
    functions := [], varFns := [] }

/-- Second file of the C1 scenario: another class `A` with method `m` calling `y()`. -/
def cx1File2 : AstFile :=
  { path := "/p/a2.ts", relativeRaw := "a2.ts", imports := [], exportDeclNames := [],
    classes := [
      { name := some "A", line := 1, exported := false, extendsText := none,
        implementsTexts := [], decoratorNames := [], componentDecorator := none,
        methods := [
          { name := "m", line := 2, params := [], returnType := "void", modifiers := [],
            decoratorNames := [], callTexts := ["y"] }],
        properties := [], ctorParams := none }],
    functions := [], varFns := [] }

/-- C1 scenario input: two files with colliding class/method identities. -/
def cx1Input : ScanInput :=
  { configPath := "/p", framework := none, files := [cx1File1, cx1File2],
    resolveTemplate := fun _ _ => none }

/-- C3 scenario: class `A` binds `_a` to `B` and calls `this._a.inject(C).d()`;
class `C` exists with method `d`; no class `B` is declared. -/
def cx3File : AstFile :=
  { path := "/p/a.ts", relativeRaw := "a.ts", imports := [], exportDeclNames := [],
    classes := [
      { name := some "A", line := 1, exported := false, extendsText := none,
        implementsTexts := [], decoratorNames := [], componentDecorator := none,
        methods := [
          { name := "m1", line := 3, params := [], returnType := "void", modifiers := [],
            decoratorNames := [], callTexts := ["this._a.inject(C).d"] }],
        properties := [
          { name := "_a", line := 2, typeText := "B", modifiers := [], decoratorNames := [],
            initializerText := some "inject(B)" }],
        ctorParams := none },
      { name := some "C", line := 10, exported := false, extendsText := none,
        implementsTexts := [], decoratorNames := [], componentDecorator := none,
        methods := [
          { name := "d", line := 11, params := [], returnType := "void", modifiers := [],
            decoratorNames := [], callTexts := [] }],
        properties := [], ctorParams := none }],
    functions := [], varFns := [] }

/-- C3 scenario input. -/
def cx3Input : ScanInput :=
  { configPath := "/p", framework := none, files := [cx3File],
    resolveTemplate := fun _ _ => none }

/-- C8 scenario: the file's first class `A` has no `Component` decorator; the
second class `B` carries the `Component` decorator with an inline template
whose event binding calls `save()`. -/
def cx8File : AstFile :=
  { path := "/p/comp.ts", relativeRaw := "comp.ts", imports := [], exportDeclNames := [],
    classes := [
      { name := some "A", line := 1, exported := false, extendsText := none,
        implementsTexts := [], decoratorNames := [], componentDecorator := none,
        methods := [], properties := [], ctorParams := none },
      { name := some "B", line := 5, exported := false, extendsText := none,
        implementsTexts := [], decoratorNames := ["Component"],
        componentDecorator := some (some
          "\x7b template: \x60<b (click)=\"save()\"></b>\x60 \x7d"),
        methods := [
          { name := "save", line := 8, params := [], returnType := "void", modifiers := [],
            decoratorNames := [], callTexts := [] }],
        properties := [], ctorParams := none }],
    functions := [], varFns := [] }

/-- C8 scenario input (angular framework, inline template only). -/
def cx8Input : ScanInput :=
  { configPath := "/p", framework := some "angular", files := [cx8File],
    resolveTemplate := fun _ _ => none }

/-- C9 scenario model: method `m2` of class `A` has one recorded caller. -/
def cx9Files : List FileInfo :=
  [{ path := "/p/a.ts", relativePath := "a.ts", imports := [], exports := [],
     classes := [
       { name := "A", line := 1, extendsName := none, implementsList := [], decorators := [],
         methods := [
           { name := "m1", line := 2, params := [], returnType := "void", modifiers := [],
             decorators := [], calls := ["this.x.m2"], calledBy := [], callChain := none },
           { name := "m2", line := 5, params := [], returnType := "void", modifiers := [],
             decorators := [], calls := [], calledBy := ["A.m1"], callChain := none }],
         properties := [] }],
     functions := [], templateBindings := [] }]

/-- Reverse graph of the C9 scenario. -/
def cx9Rg : List (String × List String) := [("A.m2", ["A.m1"])]

/-- C10 scenario: a non-exported free function whose only caller is another
free function. -/
def cx10File : AstFile :=
  { path := "/p/fn.ts", relativeRaw := "fn.ts", imports := [], exportDeclNames := [],
    classes := [],
    functions := [
      { name := some "caller", line := 1, params := [], returnType := "void",
        callTexts := ["orphan"], exported := true, varInitTexts := [] },
      { name := some "orphan", line := 5, params := [], returnType := "void",
        callTexts := [], exported := false, varInitTexts := [] }],
    varFns := [] }

/-- C10 scenario input. -/
def cx10Input : ScanInput :=
  { configPath := "/p", framework := none, files := [cx10File],
    resolveTemplate := fun _ _ => none }

/-- The extracted form of the C10 scenario's orphaned function. -/
def cx10Fn : FunctionInfo :=
  { name := "orphan", line := 5, params := [], returnType := "void", calls := [],
    exported := false }

/-- C6 scenario: a single file with no imports and a class with no methods. -/
def cx6Files : List FileInfo :=
  [{ path := "/p/e.ts", relativePath := "e.ts", imports := [], exports := [],
     classes := [
       { name := "Empty", line := 1, extendsName := none, implementsList := [],
         decorators := [], methods := [], properties := [] }],
     functions := [], templateBindings := [] }]

/-- Files of the C7 witness: `x.ts` and `y.ts` import each other. -/
def cx7FileX : AstFile :=
  { path := "/p/x.ts", relativeRaw := "x.ts",
    imports := [{ module := "./y", named := ["Y"] }], exportDeclNames := [],
    classes := [], functions := [], varFns := [] }

/-- Mirror file of the C7 witness. -/
def cx7FileY : AstFile :=
  { path := "/p/y.ts", relativeRaw := "y.ts",
    imports := [{ module := "./x", named := ["X"] }], exportDeclNames := [],
    classes := [], functions := [], varFns := [] }

/-! ## Basic lemmas about the map, set and edge primitives -/

theorem mapGet_mapSet (g : List (String × α)) (k : String) (v : α) (k2 : String) :
    mapGet (mapSet g k v) k2 = if k = k2 then some v else mapGet g k2 := by
  induction g with
  | nil =>
    by_cases h : k = k2 <;> simp [mapSet, mapGet, h]
  | cons p rest ih =>
    by_cases h1 : p.1 = k
    · by_cases h2 : k = k2
      · subst h2
        simp [mapSet, mapGet, h1]
      · have h3 : ¬p.1 = k2 := by rw [h1]; exact h2
        simp [mapSet, mapGet, h1, h2, h3]
    · by_cases h2 : p.1 = k2
      · have h3 : ¬k = k2 := by
          intro he
          exact h1 (by rw [he, h2])
        have h4 : ¬k2 = k := fun he => h3 he.symm
        simp [mapSet, mapGet, h1, h2, h3, h4]
      · simp [mapSet, mapGet, h1, h2, ih]

theorem mapGet_append_of_none {g1 : List (String × α)} {k : String}
    (h : mapGet g1 k = none) (g2 : List (String × α)) :
    mapGet (g1 ++ g2) k = mapGet g2 k := by
  induction g1 with
  | nil => simp
  | cons p rest ih =>
    by_cases hp : p.1 = k
    · rw [show mapGet (p :: rest) k = some p.2 by simp [mapGet, hp]] at h
      cases h
    · rw [show mapGet (p :: rest) k = mapGet rest k by simp [mapGet, hp]] at h
      simpa [mapGet, hp] using ih h

theorem mapGet_append_of_some {g1 : List (String × α)} {k : String} {v : α}
    (h : mapGet g1 k = some v) (g2 : List (String × α)) :
    mapGet (g1 ++ g2) k = some v := by
  induction g1 with
  | nil => cases h
  | cons p rest ih =>
    by_cases hp : p.1 = k
    · rw [show mapGet (p :: rest) k = some p.2 by simp [mapGet, hp]] at h
      simpa [mapGet, hp] using h
    · rw [show mapGet (p :: rest) k = mapGet rest k by simp [mapGet, hp]] at h
      simpa [mapGet, hp] using ih h

theorem mem_setAdd (s : List String) (c x : String) :
    x ∈ setAdd s c ↔ x ∈ s ∨ x = c := by
  unfold setAdd
  by_cases h : c ∈ s
  · simp only [if_pos h]
    constructor
    · exact Or.inl
    · rintro (hx | rfl)
      · exact hx
      · exact h
  · simp [if_neg h]

theorem setAdd_ne_nil (s : List String) (c : String) : setAdd s c ≠ [] := by
  unfold setAdd
  by_cases h : c ∈ s
  · simp only [if_pos h]
    intro he
    rw [he] at h
    simp at h
  · simp [if_neg h]

theorem edgeMemB_iff (g : List (String × List String)) (k c : String) :
    edgeMemB g k c = true ↔ ∃ s, mapGet g k = some s ∧ c ∈ s := by
  unfold edgeMemB
  cases h : mapGet g k with
  | none => simp
  | some s => simp [List.contains_iff_exists_mem_beq, beq_iff_eq, eq_comm]

theorem EdgeMem_iff (g : List (String × List String)) (k c : String) :
    EdgeMem g k c ↔ ∃ s, mapGet g k = some s ∧ c ∈ s :=
  edgeMemB_iff g k c

theorem EdgeMem_edgeAdd (g : List (String × List String)) (k c k2 c2 : String) :
    EdgeMem (edgeAdd g k c) k2 c2 ↔ EdgeMem g k2 c2 ∨ (k2 = k ∧ c2 = c) := by
  rw [EdgeMem_iff, EdgeMem_iff]
  cases h : mapGet g k with
  | none =>
    have he : edgeAdd g k c = g ++ [(k, setAdd [] c)] := by
      unfold edgeAdd
      rw [h]
    rw [he]
    constructor
    · rintro ⟨s, hs, hc⟩
      by_cases hk : k2 = k
      · rw [hk, mapGet_append_of_none h] at hs
        simp only [mapGet, if_pos rfl] at hs
        cases hs
        rw [mem_setAdd] at hc
        rcases hc with hc | hc
        · simp at hc
        · exact Or.inr ⟨hk, hc⟩
      · cases h2 : mapGet g k2 with
        | some s2 =>
          rw [mapGet_append_of_some h2] at hs
          injection hs with hse
          exact Or.inl ⟨s2, rfl, hse.symm ▸ hc⟩
        | none =>
          rw [mapGet_append_of_none h2] at hs
          have hne : ¬k = k2 := fun he2 => hk he2.symm
          simp [mapGet, hne] at hs
    · rintro (⟨s, hs, hc⟩ | ⟨hk2, hc2⟩)
      · exact ⟨s, mapGet_append_of_some hs _, hc⟩
      · refine ⟨setAdd [] c, ?_, (mem_setAdd ..).2 (Or.inr hc2)⟩
        rw [hk2, mapGet_append_of_none h]
        simp [mapGet]
  | some s =>
    have he : edgeAdd g k c = mapSet g k (setAdd s c) := by
      unfold edgeAdd
      rw [h]
    rw [he]
    by_cases hk : k2 = k
    · constructor
      · rintro ⟨s2, hs2, hc⟩
        rw [hk, mapGet_mapSet, if_pos rfl] at hs2
        cases hs2
        rw [mem_setAdd] at hc
        rcases hc with hc | hc
        · exact Or.inl ⟨s, by rw [hk]; exact h, hc⟩
        · exact Or.inr ⟨hk, hc⟩
      · rintro (⟨s2, hs2, hc⟩ | ⟨-, hc2⟩)
        · rw [hk, h] at hs2
          cases hs2
          exact ⟨setAdd s c, by rw [hk, mapGet_mapSet, if_pos rfl],
            (mem_setAdd ..).2 (Or.inl hc)⟩
        · exact ⟨setAdd s c, by rw [hk, mapGet_mapSet, if_pos rfl],
            (mem_setAdd ..).2 (Or.inr hc2)⟩
    · have hne : ¬k = k2 := fun he2 => hk he2.symm
      constructor
      · rintro ⟨s2, hs2, hc⟩
        rw [mapGet_mapSet, if_neg hne] at hs2
        exact Or.inl ⟨s2, hs2, hc⟩
      · rintro (⟨s2, hs2, hc⟩ | ⟨hk2, hc2⟩)
        · exact ⟨s2, by rw [mapGet_mapSet, if_neg hne]; exact hs2, hc⟩
        · exact absurd hk2 hk

theorem EdgeMem_foldl_calls (calls : List String) (nm : String)
    (g : List (String × List String)) (k c : String) :
    EdgeMem (calls.foldl (fun g call => edgeAdd g call nm) g) k c ↔
      EdgeMem g k c ∨ (k ∈ calls ∧ c = nm) := by
  induction calls generalizing g with
  | nil => simp
  | cons x xs ih =>
    simp only [List.foldl_cons, ih, EdgeMem_edgeAdd, List.mem_cons]
    constructor
    · rintro ((h | ⟨rfl, rfl⟩) | ⟨hx, rfl⟩)
      · exact Or.inl h
      · exact Or.inr ⟨Or.inl rfl, rfl⟩
      · exact Or.inr ⟨Or.inr hx, rfl⟩
    · rintro (h | ⟨(rfl | hx), rfl⟩)
      · exact Or.inl (Or.inl h)
      · exact Or.inl (Or.inr ⟨rfl, rfl⟩)
      · exact Or.inr ⟨hx, rfl⟩

theorem EdgeMem_foldl_opt {α : Type} (upd : α → Option (String × String)) (xs : List α)
    (g : List (String × List String)) (k c : String) :
    EdgeMem (xs.foldl (fun g x =>
        match upd x with
        | some p => edgeAdd g p.1 p.2
        | none => g) g) k c ↔
      EdgeMem g k c ∨ ∃ x ∈ xs, upd x = some (k, c) := by
  induction xs generalizing g with
  | nil => simp
  | cons x xs ih =>
    simp only [List.foldl_cons, List.mem_cons]
    cases h : upd x with
    | none =>
      simp only [h, ih]
      constructor
      · rintro (hg | ⟨y, hy, hu⟩)
        · exact Or.inl hg
        · exact Or.inr ⟨y, Or.inr hy, hu⟩
      · rintro (hg | ⟨y, hy2, hu⟩)
        · exact Or.inl hg
        · rcases hy2 with rfl | hy
          · rw [h] at hu
            cases hu
          · exact Or.inr ⟨y, hy, hu⟩
    | some p =>
      simp only [h, ih, EdgeMem_edgeAdd]
      constructor
      · rintro ((hg | ⟨rfl, rfl⟩) | ⟨y, hy, hu⟩)
        · exact Or.inl hg
        · exact Or.inr ⟨x, Or.inl rfl, by rw [h]⟩
        · exact Or.inr ⟨y, Or.inr hy, hu⟩
      · rintro (hg | ⟨y, hy2, hu⟩)
        · exact Or.inl (Or.inl hg)
        · rcases hy2 with rfl | hy
          · rw [h] at hu
            cases hu
            exact Or.inl (Or.inr ⟨rfl, rfl⟩)
          · exact Or.inr ⟨y, hy, hu⟩

/-- Last-write-wins view of repeated `Map.set`s. -/
theorem mapGet_foldl_mapSet (ps : List (String × α)) (g : List (String × α)) (k : String) :
    mapGet (ps.foldl (fun g p => mapSet g p.1 p.2) g) k =
      match lastAssoc ps k with
      | some v => some v
      | none => mapGet g k := by
  induction ps generalizing g with
  | nil => simp [lastAssoc]
  | cons p rest ih =>
    simp only [List.foldl_cons]
    rw [ih]
    cases h : lastAssoc rest k with
    | some v => simp [lastAssoc, h]
    | none =>
      simp only [lastAssoc, h]
      by_cases hp : p.1 = k
      · simp [mapGet_mapSet, hp]
      · simp [mapGet_mapSet, hp]

/-! ## Generic fold characterizations -/

/-- `mapAccumState`'s outputs are pointwise when the step's output ignores the
state. -/
theorem mapAccumState_fst {σ α β : Type} (f : σ → α → β × σ) (g : α → β)
    (h : ∀ s x, (f s x).1 = g x) (xs : List α) (s : σ) :
    (mapAccumState f s xs).1 = xs.map g := by
  induction xs generalizing s with
  | nil => rfl
  | cons x rest ih =>
    show (f s x).1 :: (mapAccumState f (f s x).2 rest).1 = g x :: rest.map g
    rw [h, ih]

/-- `mapAccumState`'s final state is a fold. -/
theorem mapAccumState_snd {σ α β : Type} (f : σ → α → β × σ) (xs : List α) (s : σ) :
    (mapAccumState f s xs).2 = xs.foldl (fun s x => (f s x).2) s := by
  induction xs generalizing s with
  | nil => rfl
  | cons x rest ih =>
    show (mapAccumState f (f s x).2 rest).2 = _
    rw [List.foldl_cons, ih]

/-- A fold whose step preserves a projection preserves it. -/
theorem foldl_preserves {σ α γ : Type} (f : σ → α → σ) (proj : σ → γ)
    (h : ∀ s x, proj (f s x) = proj s) (xs : List α) (s : σ) :
    proj (xs.foldl f s) = proj s := by
  induction xs generalizing s with
  | nil => rfl
  | cons x rest ih => rw [List.foldl_cons, ih, h]

/-- Edge membership in the graph projection of a fold, one disjunct per item. -/
theorem EdgeMem_foldlProj_iff {σ α : Type} (f : σ → α → σ)
    (proj : σ → List (String × List String)) (P : α → String → String → Prop)
    (hstep : ∀ s x k c, EdgeMem (proj (f s x)) k c ↔ EdgeMem (proj s) k c ∨ P x k c)
    (xs : List α) (s : σ) (k c : String) :
    EdgeMem (proj (xs.foldl f s)) k c ↔ EdgeMem (proj s) k c ∨ ∃ x ∈ xs, P x k c := by
  induction xs generalizing s with
  | nil => simp
  | cons x rest ih =>
    rw [List.foldl_cons, ih, hstep]
    constructor
    · rintro ((h | h) | ⟨y, hy, h⟩)
      · exact Or.inl h
      · exact Or.inr ⟨x, List.mem_cons_self x rest, h⟩
      · exact Or.inr ⟨y, List.mem_cons_of_mem x hy, h⟩
    · rintro (h | ⟨y, hy, h⟩)
      · exact Or.inl (Or.inl h)
      · rcases List.mem_cons.1 hy with rfl | hy2
        · exact Or.inl (Or.inr h)
        · exact Or.inr ⟨y, hy2, h⟩

/-- Rebasing an append-accumulating fold. -/
theorem foldl_append_acc {α β : Type} (E : α → List β) (xs : List α) (a : List β) :
    xs.foldl (fun a x => a ++ E x) a = a ++ xs.foldl (fun a x => a ++ E x) [] := by
  induction xs generalizing a with
  | nil => simp
  | cons x rest ih =>
    rw [List.foldl_cons, List.foldl_cons, ih, ih (([] : List β) ++ E x)]
    simp

theorem foldl_append_singleton_acc {α β : Type} (g : α → β) (xs : List α) (a : List β) :
    xs.foldl (fun acc x => acc ++ [g x]) a = a ++ xs.map g := by
  induction xs generalizing a with
  | nil => simp
  | cons x rest ih =>
    rw [List.foldl_cons, ih]
    simp

theorem foldl_append_singleton {α β : Type} (g : α → β) (xs : List α) :
    xs.foldl (fun acc x => acc ++ [g x]) [] = xs.map g := by
  rw [foldl_append_singleton_acc]
  simp

/-- The graph projection of a fold whose step writes a per-item entry list. -/
theorem callGraph_foldlProj {σ α : Type} (f : σ → α → σ)
    (proj : σ → List (String × List String)) (E : α → List (String × List String))
    (hstep : ∀ s x, proj (f s x) = (E x).foldl (fun g p => mapSet g p.1 p.2) (proj s))
    (xs : List α) (s : σ) :
    proj (xs.foldl f s) =
      (xs.foldl (fun a x => a ++ E x) []).foldl (fun g p => mapSet g p.1 p.2) (proj s) := by
  induction xs generalizing s with
  | nil => rfl
  | cons x rest ih =>
    calc proj ((x :: rest).foldl f s)
        = (rest.foldl (fun a x => a ++ E x) []).foldl (fun g p => mapSet g p.1 p.2)
            ((E x).foldl (fun g p => mapSet g p.1 p.2) (proj s)) := by
          rw [List.foldl_cons, ih, hstep]
      _ = ((x :: rest).foldl (fun a x => a ++ E x) []).foldl (fun g p => mapSet g p.1 p.2)
            (proj s) := by
          rw [List.foldl_cons, List.nil_append, foldl_append_acc E rest (E x),
            List.foldl_append]

/-! ## Characterization of the extraction pass -/

theorem EdgeMem_nil (k c : String) : ¬EdgeMem [] k c := by
  simp [EdgeMem, edgeMemB, mapGet]

theorem collectClass_rev (acc : ScannerState × List (String × List (String × String)))
    (cls : AstClass) :
    ((collectClass acc cls).1).reverseCallGraph = (acc.1).reverseCallGraph := by
  unfold collectClass
  cases h : cls.name with
  | none => rfl
  | some className =>
    dsimp only
    split <;> rfl

theorem collectClass_cg (acc : ScannerState × List (String × List (String × String)))
    (cls : AstClass) :
    ((collectClass acc cls).1).callGraph = (acc.1).callGraph := by
  unfold collectClass
  cases h : cls.name with
  | none => rfl
  | some className =>
    dsimp only
    split <;> rfl

theorem collectClassInfo_rev (files : List AstFile) (st : ScannerState) :
    (collectClassInfo files st).reverseCallGraph = st.reverseCallGraph :=
  foldl_preserves (fun acc f => f.classes.foldl collectClass acc)
    (fun acc => (acc.1).reverseCallGraph)
    (fun acc f => foldl_preserves collectClass (fun acc => (acc.1).reverseCallGraph)
      collectClass_rev f.classes acc)
    files (st, [])

theorem collectClassInfo_cg (files : List AstFile) (st : ScannerState) :
    (collectClassInfo files st).callGraph = st.callGraph :=
  foldl_preserves (fun acc f => f.classes.foldl collectClass acc)
    (fun acc => (acc.1).callGraph)
    (fun acc f => foldl_preserves collectClass (fun acc => (acc.1).callGraph)
      collectClass_cg f.classes acc)
    files (st, [])

theorem scanMethod_rev (st : ScannerState) (cn : String) (m : AstMethod) (k c : String) :
    EdgeMem ((scanMethod st cn m).2).reverseCallGraph k c ↔
      EdgeMem st.reverseCallGraph k c ∨
        (k ∈ (methodInfoOf cn m).calls ∧ c = cn ++ "." ++ m.name) :=
  EdgeMem_foldl_calls (extractCalls m.callTexts) (cn ++ "." ++ m.name) st.reverseCallGraph k c

theorem scanClass_rev (st : ScannerState) (cls : AstClass) (k c : String) :
    EdgeMem ((scanClass st cls).2).reverseCallGraph k c ↔
      EdgeMem st.reverseCallGraph k c ∨
        ∃ mi ∈ (classInfoOf cls).methods, k ∈ mi.calls ∧
          c = (classInfoOf cls).name ++ "." ++ mi.name := by
  have hsnd : ((scanClass st cls).2) =
      cls.methods.foldl (fun s m => (scanMethod s (cls.name.getD "anonymous") m).2) st :=
    mapAccumState_snd (fun s m => scanMethod s (cls.name.getD "anonymous") m) cls.methods st
  rw [hsnd]
  refine Iff.trans (EdgeMem_foldlProj_iff
    (fun s m => (scanMethod s (cls.name.getD "anonymous") m).2)
    ScannerState.reverseCallGraph
    (fun m k c => k ∈ (methodInfoOf (cls.name.getD "anonymous") m).calls ∧
      c = (cls.name.getD "anonymous") ++ "." ++ m.name)
    (fun s m k c => scanMethod_rev s (cls.name.getD "anonymous") m k c) cls.methods st k c) ?_
  constructor
  · rintro (h | ⟨m, hm, h1, h2⟩)
    · exact Or.inl h
    · exact Or.inr ⟨methodInfoOf (cls.name.getD "anonymous") m,
        List.mem_map.2 ⟨m, hm, rfl⟩, h1, h2⟩
  · rintro (h | ⟨mi, hmi, h1, h2⟩)
    · exact Or.inl h
    · obtain ⟨m, hm, rfl⟩ := List.mem_map.1 hmi
      exact Or.inr ⟨m, hm, h1, h2⟩

theorem scanClasses_rev (st : ScannerState) (classes : List AstClass) (k c : String) :
    EdgeMem ((mapAccumState scanClass st classes).2).reverseCallGraph k c ↔
      EdgeMem st.reverseCallGraph k c ∨
        ∃ ci ∈ classes.map classInfoOf, ∃ mi ∈ ci.methods, k ∈ mi.calls ∧
          c = ci.name ++ "." ++ mi.name := by
  rw [mapAccumState_snd scanClass classes st]
  refine Iff.trans (EdgeMem_foldlProj_iff (fun s cls => (scanClass s cls).2)
    ScannerState.reverseCallGraph
    (fun cls k c => ∃ mi ∈ (classInfoOf cls).methods, k ∈ mi.calls ∧
      c = (classInfoOf cls).name ++ "." ++ mi.name)
    (fun s cls k c => scanClass_rev s cls k c) classes st k c) ?_
  constructor
  · rintro (h | ⟨cls, hcls, h⟩)
    · exact Or.inl h
    · exact Or.inr ⟨classInfoOf cls, List.mem_map.2 ⟨cls, hcls, rfl⟩, h⟩
  · rintro (h | ⟨ci, hci, h⟩)
    · exact Or.inl h
    · obtain ⟨cls, hcls, rfl⟩ := List.mem_map.1 hci
      exact Or.inr ⟨cls, hcls, h⟩

theorem scanFunction_rev (st : ScannerState) (fn : AstFunction) :
    ((scanFunction st fn).2).reverseCallGraph = st.reverseCallGraph := by
  unfold scanFunction
  dsimp only
  split <;> rfl

theorem scanVarFn_rev (st : ScannerState) (v : AstVarFn) :
    ((scanVarFn st v).2).reverseCallGraph = st.reverseCallGraph := by
  unfold scanVarFn
  dsimp only
  split <;> rfl

theorem getFunctions_rev (st : ScannerState) (f : AstFile) :
    ((getFunctions st f).2).reverseCallGraph = st.reverseCallGraph := by
  show ((mapAccumState scanVarFn (mapAccumState scanFunction st f.functions).2
      f.varFns).2).reverseCallGraph = _
  rw [mapAccumState_snd scanVarFn f.varFns, mapAccumState_snd scanFunction f.functions]
  exact Eq.trans
    (foldl_preserves (fun s v => (scanVarFn s v).2) ScannerState.reverseCallGraph
      scanVarFn_rev f.varFns _)
    (foldl_preserves (fun s fn => (scanFunction s fn).2) ScannerState.reverseCallGraph
      scanFunction_rev f.functions st)

theorem scanFile_rev (st : ScannerState) (f : AstFile) (k c : String) :
    EdgeMem ((scanFile st f).2).reverseCallGraph k c ↔
      EdgeMem st.reverseCallGraph k c ∨ FileRawEdge (fileInfoOf f) k c := by
  show EdgeMem ((getFunctions (mapAccumState scanClass st f.classes).2 f).2).reverseCallGraph
      k c ↔ _
  rw [getFunctions_rev]
  exact scanClasses_rev st f.classes k c

/-! ## Forward-graph equations of the extraction pass -/

theorem scanClass_cg (st : ScannerState) (cls : AstClass) :
    ((scanClass st cls).2).callGraph =
      (classEntries (classInfoOf cls)).foldl (fun g p => mapSet g p.1 p.2) st.callGraph := by
  have hsnd : ((scanClass st cls).2) =
      cls.methods.foldl (fun s m => (scanMethod s (cls.name.getD "anonymous") m).2) st :=
    mapAccumState_snd (fun s m => scanMethod s (cls.name.getD "anonymous") m) cls.methods st
  rw [hsnd]
  have hent : classEntries (classInfoOf cls) =
      cls.methods.map (fun m => ((cls.name.getD "anonymous") ++ "." ++ m.name,
        (methodInfoOf (cls.name.getD "anonymous") m).calls)) := by
    unfold classEntries classInfoOf
    rw [List.map_map]
    rfl
  rw [hent, ← foldl_append_singleton (fun m => ((cls.name.getD "anonymous") ++ "." ++ m.name,
    (methodInfoOf (cls.name.getD "anonymous") m).calls)) cls.methods]
  exact callGraph_foldlProj (fun s m => (scanMethod s (cls.name.getD "anonymous") m).2)
    ScannerState.callGraph
    (fun m => [((cls.name.getD "anonymous") ++ "." ++ m.name,
      (methodInfoOf (cls.name.getD "anonymous") m).calls)])
    (fun s m => rfl) cls.methods st

theorem scanClasses_cg (st : ScannerState) (classes : List AstClass) :
    ((mapAccumState scanClass st classes).2).callGraph =
      ((classes.map classInfoOf).foldl (fun acc ci => acc ++ classEntries ci) []).foldl
        (fun g p => mapSet g p.1 p.2) st.callGraph := by
  rw [mapAccumState_snd scanClass classes st]
  refine Eq.trans (callGraph_foldlProj (fun s cls => (scanClass s cls).2)
    ScannerState.callGraph (fun cls => classEntries (classInfoOf cls))
    (fun s cls => scanClass_cg s cls) classes st) ?_
  rw [List.foldl_map]

theorem scanFunction_cg (st : ScannerState) (fn : AstFunction) :
    ((scanFunction st fn).2).callGraph =
      mapSet st.callGraph (functionInfoOf fn).name (functionInfoOf fn).calls := by
  unfold scanFunction
  dsimp only
  split <;> rfl

theorem scanVarFn_cg (st : ScannerState) (v : AstVarFn) :
    ((scanVarFn st v).2).callGraph =
      mapSet st.callGraph (varFnInfoOf v).name (varFnInfoOf v).calls := by
  unfold scanVarFn
  dsimp only
  split <;> rfl

theorem getFunctions_cg (st : ScannerState) (f : AstFile) :
    ((getFunctions st f).2).callGraph =
      ((f.functions.map functionInfoOf ++ f.varFns.map varFnInfoOf).map
        (fun fn => (fn.name, fn.calls))).foldl (fun g p => mapSet g p.1 p.2) st.callGraph := by
  have h1 : ((getFunctions st f).2) =
      f.varFns.foldl (fun s v => (scanVarFn s v).2)
        (f.functions.foldl (fun s fn => (scanFunction s fn).2) st) := by
    show ((mapAccumState scanVarFn (mapAccumState scanFunction st f.functions).2 f.varFns).2) = _
    rw [mapAccumState_snd scanVarFn f.varFns, mapAccumState_snd scanFunction f.functions]
  rw [h1]
  have h2 := callGraph_foldlProj (fun s v => (scanVarFn s v).2) ScannerState.callGraph
    (fun v => [((varFnInfoOf v).name, (varFnInfoOf v).calls)]) (fun s v => scanVarFn_cg s v)
    f.varFns (f.functions.foldl (fun s fn => (scanFunction s fn).2) st)
  have h3 := callGraph_foldlProj (fun s fn => (scanFunction s fn).2) ScannerState.callGraph
    (fun fn => [((functionInfoOf fn).name, (functionInfoOf fn).calls)])
    (fun s fn => scanFunction_cg s fn) f.functions st
  rw [h2, h3, ← List.foldl_append]
  congr 1
  rw [foldl_append_singleton (fun fn => ((functionInfoOf fn).name, (functionInfoOf fn).calls))
      f.functions,
    foldl_append_singleton (fun v => ((varFnInfoOf v).name, (varFnInfoOf v).calls)) f.varFns,
    List.map_append, List.map_map, List.map_map]
  rfl

theorem scanFile_cg (st : ScannerState) (f : AstFile) :
    ((scanFile st f).2).callGraph =
      (fileEntries (fileInfoOf f)).foldl (fun g p => mapSet g p.1 p.2) st.callGraph := by
  show ((getFunctions (mapAccumState scanClass st f.classes).2 f).2).callGraph = _
  rw [getFunctions_cg, scanClasses_cg, ← List.foldl_append]
  rfl

/-! ## The template pass and the per-file loop -/

theorem FileTemplateEdge_nil (fi : FileInfo) (h : fi.templateBindings = []) (k c : String) :
    ¬FileTemplateEdge fi k c := by
  unfold FileTemplateEdge
  rw [h]
  simp

theorem addTemplate_cg (st : ScannerState) (fi : FileInfo) (bs : List TemplateBinding) :
    (addTemplateBindingsToCallGraph st fi bs).callGraph = st.callGraph := by
  unfold addTemplateBindingsToCallGraph
  split <;> rfl

theorem EdgeMem_addTemplate (st : ScannerState) (fi : FileInfo)
    (bindings : List TemplateBinding) (k c : String) :
    EdgeMem (addTemplateBindingsToCallGraph st fi bindings).reverseCallGraph k c ↔
      EdgeMem st.reverseCallGraph k c ∨
        ∃ b ∈ bindings,
          (fi.classes.head?).bind
            (fun cls0 => (findMethodName b.expression).map (fun n => cls0.name ++ "." ++ n))
            = some k ∧
          c = "template:" ++ fi.relativePath := by
  cases hh : fi.classes.head? with
  | none =>
    have he : addTemplateBindingsToCallGraph st fi bindings = st := by
      unfold addTemplateBindingsToCallGraph
      rw [hh]
    rw [he]
    simp
  | some cls0 =>
    have hfun : (fun (g : List (String × List String)) (b : TemplateBinding) =>
        match findMethodName b.expression with
        | some n => edgeAdd g (cls0.name ++ "." ++ n) ("template:" ++ fi.relativePath)
        | none => g)
      = (fun g b =>
        match (findMethodName b.expression).map
            (fun n => (cls0.name ++ "." ++ n, "template:" ++ fi.relativePath)) with
        | some p => edgeAdd g p.1 p.2
        | none => g) := by
      funext g b
      cases findMethodName b.expression <;> rfl
    have he : addTemplateBindingsToCallGraph st fi bindings =
        { st with reverseCallGraph := bindings.foldl (fun g b =>
            match (findMethodName b.expression).map
                (fun n => (cls0.name ++ "." ++ n, "template:" ++ fi.relativePath)) with
            | some p => edgeAdd g p.1 p.2
            | none => g) st.reverseCallGraph } := by
      unfold addTemplateBindingsToCallGraph
      rw [hh]
      dsimp only
      rw [hfun]
    rw [he]
    refine Iff.trans (EdgeMem_foldl_opt (fun b => (findMethodName b.expression).map
      (fun n => (cls0.name ++ "." ++ n, "template:" ++ fi.relativePath))) bindings
      st.reverseCallGraph k c) ?_
    constructor
    · rintro (h | ⟨b, hb, hu⟩)
      · exact Or.inl h
      · obtain ⟨n, hn, hpr⟩ := Option.map_eq_some'.1 hu
        rw [Prod.mk.injEq] at hpr
        refine Or.inr ⟨b, hb, ?_, hpr.2.symm⟩
        show (findMethodName b.expression).map (fun n => cls0.name ++ "." ++ n) = some k
        rw [hn]
        exact congrArg some hpr.1
    · rintro (h | ⟨b, hb, hk, hc⟩)
      · exact Or.inl h
      · have hk2 : (findMethodName b.expression).map (fun n => cls0.name ++ "." ++ n)
            = some k := hk
        obtain ⟨n, hn, hkey⟩ := Option.map_eq_some'.1 hk2
        refine Or.inr ⟨b, hb, ?_⟩
        rw [hn]
        show some (cls0.name ++ "." ++ n, "template:" ++ fi.relativePath) = some (k, c)
        rw [hkey, hc]

theorem scanClass_fst (st : ScannerState) (cls : AstClass) :
    (scanClass st cls).1 = classInfoOf cls := by
  unfold scanClass classInfoOf
  dsimp only
  rw [mapAccumState_fst (fun s m => scanMethod s (cls.name.getD "anonymous") m)
    (methodInfoOf (cls.name.getD "anonymous")) (fun s m => rfl) cls.methods st]

theorem getFunctions_fst (st : ScannerState) (f : AstFile) :
    (getFunctions st f).1 = f.functions.map functionInfoOf ++ f.varFns.map varFnInfoOf := by
  show (mapAccumState scanFunction st f.functions).1
      ++ (mapAccumState scanVarFn (mapAccumState scanFunction st f.functions).2 f.varFns).1 = _
  rw [mapAccumState_fst scanFunction functionInfoOf (fun s x => rfl) f.functions st,
    mapAccumState_fst scanVarFn varFnInfoOf (fun s x => rfl) f.varFns]

theorem scanFile_fst (st : ScannerState) (f : AstFile) :
    (scanFile st f).1 = fileInfoOf f := by
  unfold scanFile fileInfoOf
  dsimp only
  rw [getFunctions_fst, mapAccumState_fst scanClass classInfoOf scanClass_fst f.classes st]

theorem fileEntries_scanned (fw : Option String) (rt : String → String → Option String)
    (f : AstFile) :
    fileEntries (scannedFileInfo fw rt f) = fileEntries (fileInfoOf f) := by
  unfold scannedFileInfo
  dsimp only
  split
  · split <;> rfl
  · rfl

theorem scanFileStep_eq (fw : Option String) (rt : String → String → Option String)
    (acc : List FileInfo × ScannerState) (f : AstFile) :
    scanFileStep fw rt acc f =
      (acc.1 ++ [scannedFileInfo fw rt f],
       if fw = some "angular" ∧ 0 < (scanAngularTemplate rt f).length then
         addTemplateBindingsToCallGraph (scanFile acc.2 f).2
           (scannedFileInfo fw rt f) (scanAngularTemplate rt f)
       else (scanFile acc.2 f).2) := by
  unfold scanFileStep scannedFileInfo
  by_cases h1 : fw = some "angular"
  · by_cases h2 : 0 < (scanAngularTemplate rt f).length
    · simp [h1, h2, scanFile_fst]
    · simp [h1, h2, scanFile_fst]
  · simp [h1, scanFile_fst]

theorem scanFileStep_rev (fw : Option String) (rt : String → String → Option String)
    (acc : List FileInfo × ScannerState) (f : AstFile) (k c : String) :
    EdgeMem ((scanFileStep fw rt acc f).2).reverseCallGraph k c ↔
      EdgeMem ((acc.2).reverseCallGraph) k c ∨
        (FileRawEdge (scannedFileInfo fw rt f) k c ∨
          FileTemplateEdge (scannedFileInfo fw rt f) k c) := by
  rw [scanFileStep_eq]
  dsimp only
  by_cases h12 : fw = some "angular" ∧ 0 < (scanAngularTemplate rt f).length
  · rw [if_pos h12]
    have hsfi : scannedFileInfo fw rt f =
        { fileInfoOf f with templateBindings := scanAngularTemplate rt f } := by
      unfold scannedFileInfo
      dsimp only
      rw [if_pos h12.1, if_pos h12.2]
    rw [hsfi, EdgeMem_addTemplate, scanFile_rev]
    constructor
    · rintro ((h | h) | h)
      · exact Or.inl h
      · exact Or.inr (Or.inl h)
      · exact Or.inr (Or.inr h)
    · rintro (h | (h | h))
      · exact Or.inl (Or.inl h)
      · exact Or.inl (Or.inr h)
      · exact Or.inr h
  · rw [if_neg h12]
    have hsfi : scannedFileInfo fw rt f = fileInfoOf f := by
      unfold scannedFileInfo
      dsimp only
      by_cases h1 : fw = some "angular"
      · rw [if_pos h1, if_neg (fun h2 => h12 ⟨h1, h2⟩)]
      · rw [if_neg h1]
    rw [hsfi, scanFile_rev]
    constructor
    · rintro (h | h)
      · exact Or.inl h
      · exact Or.inr (Or.inl h)
    · rintro (h | (h | h))
      · exact Or.inl h
      · exact Or.inr h
      · exact absurd h (FileTemplateEdge_nil (fileInfoOf f) rfl k c)

theorem scanFileStep_cg (fw : Option String) (rt : String → String → Option String)
    (acc : List FileInfo × ScannerState) (f : AstFile) :
    ((scanFileStep fw rt acc f).2).callGraph =
      (fileEntries (fileInfoOf f)).foldl (fun g p => mapSet g p.1 p.2) ((acc.2).callGraph) := by
  rw [scanFileStep_eq]
  dsimp only
  split
  · rw [addTemplate_cg, scanFile_cg]
  · rw [scanFile_cg]

theorem scanFilesLoop_fst (input : ScanInput) (st : ScannerState) :
    (scanFilesLoop input st).1 =
      input.files.map (scannedFileInfo input.framework input.resolveTemplate) := by
  unfold scanFilesLoop
  have h : ∀ (xs : List AstFile) (acc : List FileInfo × ScannerState),
      (xs.foldl (scanFileStep input.framework input.resolveTemplate) acc).1 =
        acc.1 ++ xs.map (scannedFileInfo input.framework input.resolveTemplate) := by
    intro xs
    induction xs with
    | nil => intro acc; simp
    | cons x rest ih =>
      intro acc
      rw [List.foldl_cons, ih, scanFileStep_eq]
      simp
  rw [h]
  simp

theorem scanFilesLoop_rev (input : ScanInput) (st : ScannerState) (k c : String) :
    EdgeMem ((scanFilesLoop input st).2).reverseCallGraph k c ↔
      EdgeMem st.reverseCallGraph k c ∨
        MethodRawEdge ((scanFilesLoop input st).1) k c ∨
        TemplateEdge ((scanFilesLoop input st).1) k c := by
  rw [scanFilesLoop_fst]
  unfold MethodRawEdge TemplateEdge
  refine Iff.trans (EdgeMem_foldlProj_iff
    (scanFileStep input.framework input.resolveTemplate)
    (fun acc => (acc.2).reverseCallGraph)
    (fun f k c => FileRawEdge (scannedFileInfo input.framework input.resolveTemplate f) k c ∨
      FileTemplateEdge (scannedFileInfo input.framework input.resolveTemplate f) k c)
    (fun acc f k c => scanFileStep_rev input.framework input.resolveTemplate acc f k c)
    input.files (([] : List FileInfo), st) k c) ?_
  constructor
  · rintro (h | ⟨f, hf, (h | h)⟩)
    · exact Or.inl h
    · exact Or.inr (Or.inl ⟨scannedFileInfo input.framework input.resolveTemplate f,
        List.mem_map.2 ⟨f, hf, rfl⟩, h⟩)
    · exact Or.inr (Or.inr ⟨scannedFileInfo input.framework input.resolveTemplate f,
        List.mem_map.2 ⟨f, hf, rfl⟩, h⟩)
  · rintro (h | (⟨fi, hfi, h⟩ | ⟨fi, hfi, h⟩))
    · exact Or.inl h
    · obtain ⟨f, hf, rfl⟩ := List.mem_map.1 hfi
      exact Or.inr ⟨f, hf, Or.inl h⟩
    · obtain ⟨f, hf, rfl⟩ := List.mem_map.1 hfi
      exact Or.inr ⟨f, hf, Or.inr h⟩

theorem scanFilesLoop_cg (input : ScanInput) (st : ScannerState) :
    ((scanFilesLoop input st).2).callGraph =
      (forwardEntries ((scanFilesLoop input st).1)).foldl (fun g p => mapSet g p.1 p.2)
        st.callGraph := by
  rw [scanFilesLoop_fst]
  refine Eq.trans (callGraph_foldlProj (scanFileStep input.framework input.resolveTemplate)
    (fun acc => (acc.2).callGraph) (fun f => fileEntries (fileInfoOf f))
    (fun acc f => scanFileStep_cg input.framework input.resolveTemplate acc f)
    input.files (([] : List FileInfo), st)) ?_
  congr 1
  unfold forwardEntries
  rw [List.foldl_map]
  refine List.foldl_ext _ _ [] (fun a f hf => ?_)
  rw [fileEntries_scanned]

/-! ## Characterization of the resolution pass -/

theorem EdgeMem_resolveStep (resolve : String → Option String) (caller : String)
    (g : List (String × List String)) (call : String) (k c : String) :
    EdgeMem (match resolve call with
      | some r => edgeAdd g r caller
      | none => g) k c ↔
      EdgeMem g k c ∨ (resolve call = some k ∧ c = caller) := by
  cases h : resolve call with
  | none => simp
  | some r =>
    rw [EdgeMem_edgeAdd]
    constructor
    · rintro (hg | ⟨rfl, rfl⟩)
      · exact Or.inl hg
      · exact Or.inr ⟨rfl, rfl⟩
    · rintro (hg | ⟨hk, rfl⟩)
      · exact Or.inl hg
      · exact Or.inr ⟨(Option.some.inj hk).symm, rfl⟩

theorem resolveCalls_rev (resolve : String → Option String) (caller : String)
    (calls : List String) (g : List (String × List String)) (k c : String) :
    EdgeMem (calls.foldl (fun rev call =>
        match resolve call with
        | some r => edgeAdd rev r caller
        | none => rev) g) k c ↔
      EdgeMem g k c ∨ ∃ call ∈ calls, resolve call = some k ∧ c = caller :=
  EdgeMem_foldlProj_iff (fun rev call =>
      match resolve call with
      | some r => edgeAdd rev r caller
      | none => rev) (fun g => g)
    (fun call k c => resolve call = some k ∧ c = caller)
    (fun g call k c => EdgeMem_resolveStep resolve caller g call k c) calls g k c

theorem resolveMethods_rev (resolve : String → Option String) (clsName : String)
    (methods : List MethodInfo) (g : List (String × List String)) (k c : String) :
    EdgeMem (methods.foldl (fun rev m =>
        m.calls.foldl (fun rev call =>
          match resolve call with
          | some r => edgeAdd rev r (clsName ++ "." ++ m.name)
          | none => rev) rev) g) k c ↔
      EdgeMem g k c ∨ ∃ m ∈ methods, ∃ call ∈ m.calls,
        resolve call = some k ∧ c = clsName ++ "." ++ m.name :=
  EdgeMem_foldlProj_iff (fun rev m =>
      m.calls.foldl (fun rev call =>
        match resolve call with
        | some r => edgeAdd rev r (clsName ++ "." ++ m.name)
        | none => rev) rev)
    (fun g => g)
    (fun m k c => ∃ call ∈ m.calls, resolve call = some k ∧ c = clsName ++ "." ++ m.name)
    (fun g m k c => resolveCalls_rev resolve (clsName ++ "." ++ m.name) m.calls g k c)
    methods g k c

theorem resolveClasses_rev (st : ScannerState) (classes : List ClassInfo)
    (g : List (String × List String)) (k c : String) :
    EdgeMem (classes.foldl (fun rev cls =>
        cls.methods.foldl (fun rev m =>
          m.calls.foldl (fun rev call =>
            match resolveClassCall ((mapGet st.injectionMap cls.name).getD [])
                st.nestedInjectionMap st.classMethodsMap call with
            | some r => edgeAdd rev r (cls.name ++ "." ++ m.name)
            | none => rev) rev) rev) g) k c ↔
      EdgeMem g k c ∨ ∃ cls ∈ classes, ∃ m ∈ cls.methods, ∃ call ∈ m.calls,
        resolveClassCall ((mapGet st.injectionMap cls.name).getD [])
          st.nestedInjectionMap st.classMethodsMap call = some k ∧
        c = cls.name ++ "." ++ m.name :=
  EdgeMem_foldlProj_iff (fun rev cls =>
      cls.methods.foldl (fun rev m =>
        m.calls.foldl (fun rev call =>
          match resolveClassCall ((mapGet st.injectionMap cls.name).getD [])
              st.nestedInjectionMap st.classMethodsMap call with
          | some r => edgeAdd rev r (cls.name ++ "." ++ m.name)
          | none => rev) rev) rev)
    (fun g => g)
    (fun cls k c => ∃ m ∈ cls.methods, ∃ call ∈ m.calls,
      resolveClassCall ((mapGet st.injectionMap cls.name).getD [])
        st.nestedInjectionMap st.classMethodsMap call = some k ∧
      c = cls.name ++ "." ++ m.name)
    (fun g cls k c => resolveMethods_rev
      (resolveClassCall ((mapGet st.injectionMap cls.name).getD [])
        st.nestedInjectionMap st.classMethodsMap) cls.name cls.methods g k c)
    classes g k c

theorem resolveFns_rev (st : ScannerState) (fns : List FunctionInfo)
    (g : List (String × List String)) (k c : String) :
    EdgeMem (fns.foldl (fun rev fn =>
        fn.calls.foldl (fun rev call =>
          match resolveFnCall ((mapGet st.localInjectionMap fn.name).getD [])
              st.classMethodsMap call with
          | some r => edgeAdd rev r ("function:" ++ fn.name)
          | none => rev) rev) g) k c ↔
      EdgeMem g k c ∨ ∃ fn ∈ fns, ∃ call ∈ fn.calls,
        resolveFnCall ((mapGet st.localInjectionMap fn.name).getD [])
          st.classMethodsMap call = some k ∧
        c = "function:" ++ fn.name :=
  EdgeMem_foldlProj_iff (fun rev fn =>
      fn.calls.foldl (fun rev call =>
        match resolveFnCall ((mapGet st.localInjectionMap fn.name).getD [])
            st.classMethodsMap call with
        | some r => edgeAdd rev r ("function:" ++ fn.name)
        | none => rev) rev)
    (fun g => g)
    (fun fn k c => ∃ call ∈ fn.calls,
      resolveFnCall ((mapGet st.localInjectionMap fn.name).getD [])
        st.classMethodsMap call = some k ∧
      c = "function:" ++ fn.name)
    (fun g fn k c => resolveCalls_rev
      (resolveFnCall ((mapGet st.localInjectionMap fn.name).getD []) st.classMethodsMap)
      ("function:" ++ fn.name) fn.calls g k c)
    fns g k c

theorem resolveCrossFileCalls_rev (files : List FileInfo) (st : ScannerState) (k c : String) :
    EdgeMem (resolveCrossFileCalls files st).reverseCallGraph k c ↔
      EdgeMem st.reverseCallGraph k c ∨ ResolvedEdge st files k c := by
  unfold ResolvedEdge
  have hcore := EdgeMem_foldlProj_iff
    (fun (rev : List (String × List String)) (fi : FileInfo) =>
      fi.functions.foldl (fun rev fn =>
        fn.calls.foldl (fun rev call =>
          match resolveFnCall ((mapGet st.localInjectionMap fn.name).getD [])
              st.classMethodsMap call with
          | some r => edgeAdd rev r ("function:" ++ fn.name)
          | none => rev) rev)
        (fi.classes.foldl (fun rev cls =>
          cls.methods.foldl (fun rev m =>
            m.calls.foldl (fun rev call =>
              match resolveClassCall ((mapGet st.injectionMap cls.name).getD [])
                  st.nestedInjectionMap st.classMethodsMap call with
              | some r => edgeAdd rev r (cls.name ++ "." ++ m.name)
              | none => rev) rev) rev) rev))
    (fun g => g)
    (fun fi k c =>
      (∃ cls ∈ fi.classes, ∃ m ∈ cls.methods, ∃ call ∈ m.calls,
        resolveClassCall ((mapGet st.injectionMap cls.name).getD [])
          st.nestedInjectionMap st.classMethodsMap call = some k ∧
        c = cls.name ++ "." ++ m.name) ∨
      (∃ fn ∈ fi.functions, ∃ call ∈ fn.calls,
        resolveFnCall ((mapGet st.localInjectionMap fn.name).getD [])
          st.classMethodsMap call = some k ∧
        c = "function:" ++ fn.name))
    (fun g fi k c => by
      dsimp only
      rw [resolveFns_rev st fi.functions, resolveClasses_rev st fi.classes g k c]
      exact or_assoc)
    files st.reverseCallGraph k c
  refine Iff.trans hcore ?_
  constructor
  · rintro (h | ⟨fi, hfi, (h | h)⟩)
    · exact Or.inl h
    · exact Or.inr (Or.inl ⟨fi, hfi, h⟩)
    · exact Or.inr (Or.inr ⟨fi, hfi, h⟩)
  · rintro (h | (⟨fi, hfi, h⟩ | ⟨fi, hfi, h⟩))
    · exact Or.inl h
    · exact Or.inr ⟨fi, hfi, Or.inl h⟩
    · exact Or.inr ⟨fi, hfi, Or.inr h⟩

/-! ## The two scan-level graph characterizations -/

theorem scan_rev_spec (input : ScanInput) (k c : String) :
    EdgeMem ((scan input).st).reverseCallGraph k c ↔
      MethodRawEdge (scanExtractedFiles input) k c ∨
      TemplateEdge (scanExtractedFiles input) k c ∨
      ResolvedEdge ((scan input).st) (scanExtractedFiles input) k c := by
  refine Iff.trans (resolveCrossFileCalls_rev
    (scanFilesLoop input (collectClassInfo input.files ScannerState.empty)).1
    (scanFilesLoop input (collectClassInfo input.files ScannerState.empty)).2 k c) ?_
  rw [scanFilesLoop_rev]
  have h0 : (collectClassInfo input.files ScannerState.empty).reverseCallGraph =
      ([] : List (String × List String)) :=
    collectClassInfo_rev input.files ScannerState.empty
  rw [h0]
  constructor
  · rintro ((h | h | h) | h)
    · exact absurd h (EdgeMem_nil k c)
    · exact Or.inl h
    · exact Or.inr (Or.inl h)
    · exact Or.inr (Or.inr h)
  · rintro (h | h | h)
    · exact Or.inl (Or.inr (Or.inl h))
    · exact Or.inl (Or.inr (Or.inr h))
    · exact Or.inr h

theorem scan_cg (input : ScanInput) (k : String) :
    mapGet ((scan input).st).callGraph k =
      lastAssoc (forwardEntries (scanExtractedFiles input)) k := by
  have h1 : ((scan input).st).callGraph =
      (forwardEntries (scanExtractedFiles input)).foldl (fun g p => mapSet g p.1 p.2)
        ((collectClassInfo input.files ScannerState.empty).callGraph) := by
    show ((scanFilesLoop input (collectClassInfo input.files ScannerState.empty)).2).callGraph
      = _
    rw [scanFilesLoop_cg]
    rfl
  rw [h1, mapGet_foldl_mapSet, collectClassInfo_cg input.files ScannerState.empty]
  cases hla : lastAssoc (forwardEntries (scanExtractedFiles input)) k <;>
    simp [mapGet]

/-! ## Key shapes of resolved and template edges -/

theorem dot_mem_append (a b : String) : '.' ∈ (a ++ "." ++ b).toList := by
  show '.' ∈ (a ++ "." ++ b).data
  rw [String.data_append, String.data_append]
  simp [show ("." : String).data = ['.'] from rfl]

theorem resolveSimpleRule_shape (inj : List (String × String))
    (nmap : List (String × List (String × String))) (call r : String)
    (h : resolveSimpleRule inj nmap call = some r) : ∃ a b, r = a ++ "." ++ b := by
  unfold resolveSimpleRule at h
  split at h
  · simp at h
  · split at h
    · simp at h
    · split at h
      · split at h
        · simp at h
        · exact ⟨_, _, (Option.some.inj h).symm⟩
      · exact ⟨_, _, (Option.some.inj h).symm⟩

theorem resolveNestedRule_shape (inj : List (String × String))
    (nmap : List (String × List (String × String))) (call r : String)
    (h : resolveNestedRule inj nmap call = some r) : ∃ a b, r = a ++ "." ++ b := by
  unfold resolveNestedRule at h
  split at h
  · simp at h
  · rw [Option.bind_eq_some] at h
    obtain ⟨sc, h1, h⟩ := h
    rw [Option.bind_eq_some] at h
    obtain ⟨ni, h2, h⟩ := h
    rw [Option.map_eq_some'] at h
    obtain ⟨nsc, h3, h4⟩ := h
    exact ⟨nsc, _, h4.symm⟩

theorem resolveInjectRule_shape (cmap : List (String × List String)) (call r : String)
    (h : resolveInjectRule cmap call = some r) : ∃ a b, r = a ++ "." ++ b := by
  unfold resolveInjectRule at h
  split at h
  · simp at h
  · split at h
    · exact ⟨_, _, (Option.some.inj h).symm⟩
    · simp at h

theorem resolveLocalVarRule_shape (li : List (String × String))
    (cmap : List (String × List String)) (call r : String)
    (h : resolveLocalVarRule li cmap call = some r) : ∃ a b, r = a ++ "." ++ b := by
  unfold resolveLocalVarRule at h
  split at h
  · simp at h
  · split at h
    · simp at h
    · split at h
      · exact ⟨_, _, (Option.some.inj h).symm⟩
      · simp at h

theorem resolveFnCall_dot (li : List (String × String)) (cmap : List (String × List String))
    (call k : String) (h : resolveFnCall li cmap call = some k) : '.' ∈ k.toList := by
  unfold resolveFnCall at h
  split at h
  · rename_i r hr
    obtain ⟨a, b, hab⟩ := resolveInjectRule_shape cmap call k (hr.trans h)
    rw [hab]
    exact dot_mem_append a b
  · obtain ⟨a, b, hab⟩ := resolveLocalVarRule_shape li cmap call k h
    rw [hab]
    exact dot_mem_append a b

theorem deadFunctionItem_of_no_callers (rg : List (String × List String)) (file : FileInfo)
    (fn : FunctionInfo) (h : ∀ c, ¬EdgeMem rg fn.name c) (he : fn.exported = false) :
    (deadFunctionItem rg file fn).isSome = true := by
  unfold deadFunctionItem
  cases hm : mapGet rg fn.name with
  | none => simp [he]
  | some callers =>
    cases callers with
    | nil => simp [he]
    | cons a t =>
      exact absurd ((EdgeMem_iff rg fn.name a).2 ⟨a :: t, hm, List.mem_cons_self a t⟩) (h a)

/-! ## Dead-code analyzer characterization -/

theorem mem_foldr_append {α β : Type} (f : α → List β) (l : List α) (b : β) :
    b ∈ l.foldr (fun a acc => f a ++ acc) [] ↔ ∃ a ∈ l, b ∈ f a := by
  induction l with
  | nil => simp
  | cons x xs ih => simp [ih]

theorem mem_detectDeadCode (rg : List (String × List String)) (files : List FileInfo)
    (it : DeadCodeItem) :
    it ∈ detectDeadCode rg files ↔
      ∃ file ∈ files,
        (∃ cls ∈ file.classes, ∃ m ∈ cls.methods, deadMethodItem file cls m = some it) ∨
        (∃ fn ∈ file.functions, deadFunctionItem rg file fn = some it) := by
  unfold detectDeadCode
  induction files with
  | nil => simp
  | cons f fs ih =>
    simp only [List.foldr_cons, List.mem_append, ih, List.mem_cons]
    rw [mem_foldr_append (fun cls => cls.methods.filterMap (deadMethodItem f cls)) f.classes it]
    simp only [List.mem_filterMap]
    constructor
    · rintro ((⟨cls, hcls, m, hm, hit⟩ | ⟨fn, hfn, hit⟩) | ⟨file, hfile, hrest⟩)
      · exact ⟨f, Or.inl rfl, Or.inl ⟨cls, hcls, m, hm, hit⟩⟩
      · exact ⟨f, Or.inl rfl, Or.inr ⟨fn, hfn, hit⟩⟩
      · exact ⟨file, Or.inr hfile, hrest⟩
    · rintro ⟨file, hfile2, hrest⟩
      rcases hfile2 with rfl | hfile
      · rcases hrest with ⟨cls, hcls, m, hm, hit⟩ | hfn
        · exact Or.inl (Or.inl ⟨cls, hcls, m, hm, hit⟩)
        · exact Or.inl (Or.inr hfn)
      · exact Or.inr ⟨file, hfile, hrest⟩

/-- C4: a class method is reported as dead code exactly when its `calledBy`
list is empty, its name is not in the lifecycle allow-list, and it is not both
underscore-prefixed and marked private; every reported method item carries the
reason "No callers found", and a zero-caller `ngOnInit` is never reported. -/
theorem C4_dead_method_rule :
    ∀ (file : FileInfo) (cls : ClassInfo) (m : MethodInfo),
      ((deadMethodItem file cls m).isSome ↔
        (m.calledBy = [] ∧ m.name ∉ lifecycleHooks ∧
          ¬(strStartsWith m.name "_" = true ∧ "private" ∈ m.modifiers))) ∧
      (∀ it, deadMethodItem file cls m = some it →
        it.reason = "No callers found" ∧ it.type = "method" ∧
          it.fullName = cls.name ++ "." ++ m.name) ∧
      (m.name = "ngOnInit" → deadMethodItem file cls m = none) ∧
      (∀ rg files, file ∈ files → cls ∈ file.classes → m ∈ cls.methods →
        ∀ it, deadMethodItem file cls m = some it → it ∈ detectDeadCode rg files) := by
  intro file cls m
  refine ⟨?_, ?_, ?_, ?_⟩
  · unfold deadMethodItem
    by_cases h1 : m.calledBy.length = 0
    · by_cases h2 : m.name ∈ lifecycleHooks
      · simp [h1, h2, List.length_eq_zero.1 h1]
      · by_cases h3 : strStartsWith m.name "_" = true ∧ "private" ∈ m.modifiers
        · simp [h1, h2, h3]
        · simp [h1, h2, h3, List.length_eq_zero.1 h1]
    · have : ¬m.calledBy = [] := fun he => h1 (by rw [he]; rfl)
      simp [h1, this]
  · intro it hit
    unfold deadMethodItem at hit
    by_cases h1 : m.calledBy.length = 0
    · by_cases h2 : m.name ∈ lifecycleHooks
      · simp [h1, h2] at hit
      · by_cases h3 : strStartsWith m.name "_" = true ∧ "private" ∈ m.modifiers
        · simp [h1, h2, h3] at hit
        · simp only [h1, if_pos rfl, if_neg h2, if_neg h3] at hit
          cases hit
          exact ⟨rfl, rfl, rfl⟩
    · simp [h1] at hit
  · intro hname
    unfold deadMethodItem
    have h2 : m.name ∈ lifecycleHooks := by rw [hname]; decide
    by_cases h1 : m.calledBy.length = 0
    · simp [h1, h2]
    · simp [h1]
  · intro rg files hfile hcls hm it hit
    exact (mem_detectDeadCode rg files it).2 ⟨file, hfile, Or.inl ⟨cls, hcls, m, hm, hit⟩⟩

/-- Closed instance of `C4_dead_method_rule`. -/
theorem C4_dead_method_rule_witness :
    let m0 : MethodInfo :=
      { name := "helper", line := 5, params := [], returnType := "void",
        modifiers := [], decorators := [], calls := [], calledBy := [], callChain := none }
    let cls0 : ClassInfo :=
      { name := "A", line := 1, extendsName := none, implementsList := [],
        decorators := [], methods := [m0], properties := [] }
    let file0 : FileInfo :=
      { path := "/p/a.ts", relativePath := "a.ts", imports := [],
        exports := [], classes := [cls0], functions := [], templateBindings := [] }
    (deadMethodItem file0 cls0 m0).isSome ∧
      ∀ it, deadMethodItem file0 cls0 m0 = some it → it ∈ detectDeadCode [] [file0] := by
  intro m0 cls0 file0
  have h := C4_dead_method_rule file0 cls0 m0
  refine ⟨h.1.2 (by decide), fun it hit => h.2.2.2 [] [file0] ?_ ?_ ?_ it hit⟩
  · exact List.mem_singleton.2 rfl
  · exact List.mem_singleton.2 rfl
  · exact List.mem_singleton.2 rfl

/-- C5: a free function with no reverse-graph entry under its name is reported
as dead code exactly when it is not exported; flipping only the exported flag
flips exactly this outcome. -/
theorem C5_export_exemption (rg : List (String × List String)) (file : FileInfo)
    (fn : FunctionInfo)
    (h : mapGet rg fn.name = none ∨ mapGet rg fn.name = some []) :
    ((deadFunctionItem rg file fn).isSome = !fn.exported) ∧
      deadFunctionItem rg file { fn with exported := true } = none ∧
      (deadFunctionItem rg file { fn with exported := false }).isSome = true := by
  unfold deadFunctionItem
  rcases h with h | h <;>
    cases he : fn.exported <;>
      simp [h, he]

/-! ## Resolution-rule precedence (C3) and transitive resolution (C2) -/

theorem resolveClassCall_eq (inj : List (String × String))
    (nmap : List (String × List (String × String)))
    (cmap : List (String × List String)) (call : String) :
    resolveClassCall inj nmap cmap call =
      match resolveInjectRule cmap call with
      | some r => some r
      | none =>
        match resolveNestedRule inj nmap call with
        | some r => some r
        | none => resolveSimpleRule inj nmap call := by
  unfold resolveClassCall
  cases resolveSimpleRule inj nmap call <;>
    cases resolveNestedRule inj nmap call <;>
      cases resolveInjectRule cmap call <;> rfl

theorem matchNestedCall_simple (call : String) (pr : String × String × String)
    (h : matchNestedCall call = some pr) :
    matchSimpleCall call = some (pr.1, pr.2.1) := by
  unfold matchNestedCall at h
  rw [Option.bind_eq_some] at h
  obtain ⟨t, hm, h⟩ := h
  rw [Option.bind_eq_some] at h
  obtain ⟨r2, h2, h⟩ := h
  rw [Option.map_eq_some'] at h
  obtain ⟨p3, h3, h4⟩ := h
  unfold matchSimpleCall
  rw [hm]
  subst h4
  rfl

theorem nested_excludes_simple (inj : List (String × String))
    (nmap : List (String × List (String × String))) (call : String) (r : String)
    (h : resolveNestedRule inj nmap call = some r) :
    resolveSimpleRule inj nmap call = none := by
  unfold resolveNestedRule at h
  split at h
  · cases h
  · rename_i pr hm
    rw [Option.bind_eq_some] at h
    obtain ⟨sc, h1, h⟩ := h
    rw [Option.bind_eq_some] at h
    obtain ⟨ni, h2, h⟩ := h
    rw [Option.map_eq_some'] at h
    obtain ⟨nsc, h3, h4⟩ := h
    unfold resolveSimpleRule
    rw [matchNestedCall_simple call pr hm]
    simp [mapHas, h1, h2, h3]

theorem resolveClassCall_dot (inj : List (String × String))
    (nmap : List (String × List (String × String)))
    (cmap : List (String × List String)) (call k : String)
    (h : resolveClassCall inj nmap cmap call = some k) : '.' ∈ k.toList := by
  rw [resolveClassCall_eq] at h
  split at h
  · rename_i r hr
    obtain ⟨a, b, hab⟩ := resolveInjectRule_shape cmap call k (hr.trans h)
    rw [hab]
    exact dot_mem_append a b
  · split at h
    · rename_i r hr
      obtain ⟨a, b, hab⟩ := resolveNestedRule_shape inj nmap call k (hr.trans h)
      rw [hab]
      exact dot_mem_append a b
    · obtain ⟨a, b, hab⟩ := resolveSimpleRule_shape inj nmap call k h
      rw [hab]
      exact dot_mem_append a b

theorem takeWhile_append_all {p : Char → Bool} (w rest : List Char)
    (hw : ∀ c ∈ w, p c = true) (hr : ∀ c, rest.head? = some c → p c = false) :
    (w ++ rest).takeWhile p = w ∧ (w ++ rest).dropWhile p = rest := by
  induction w with
  | nil =>
    simp only [List.nil_append]
    cases rest with
    | nil => simp
    | cons r rs =>
      have hpr := hr r rfl
      simp [List.takeWhile_cons, List.dropWhile_cons, hpr]
  | cons a as ih =>
    have ha := hw a (List.mem_cons_self _ _)
    have ih2 := ih (fun c hc => hw c (List.mem_cons_of_mem _ hc))
    simp [List.takeWhile_cons, List.dropWhile_cons, ha, ih2.1, ih2.2]

theorem takeWord_append (w rest : List Char) (hw1 : w ≠ [])
    (hw : ∀ c ∈ w, wordChar c = true)
    (hr : ∀ c, rest.head? = some c → wordChar c = false) :
    takeWord (w ++ rest) = some (w, rest) := by
  obtain ⟨ht, hd⟩ := takeWhile_append_all w rest hw hr
  unfold takeWord
  rw [ht, hd]
  simp [hw1]

theorem takeWord_all (w : String) (hw : WordStr w) :
    takeWord w.toList = some (w.toList, []) := by
  have h := takeWord_append w.toList [] hw.1 hw.2 (fun c hc => nomatch hc)
  simpa using h

theorem skipSpaces_not_space (c : Char) (l : List Char) (h : spaceChar c = false) :
    skipSpaces (c :: l) = c :: l := by
  simp [skipSpaces, List.dropWhile_cons, h]

theorem wordChar_not_space (c : Char) (h : wordChar c = true) : spaceChar c = false := by
  cases hs : spaceChar c
  · rfl
  · exfalso
    simp only [spaceChar, Bool.or_eq_true, beq_iff_eq] at hs
    rcases hs with ((((rfl | rfl) | rfl) | rfl) | rfl) | rfl <;> exact absurd h (by decide)

theorem skipSpaces_word_head (l : List Char) (c : Char) (h : l.head? = some c)
    (hc : wordChar c = true) : skipSpaces l = l := by
  cases l with
  | nil => cases h
  | cons a as =>
    rw [List.head?_cons] at h
    injection h with h
    subst h
    exact skipSpaces_not_space a as (wordChar_not_space a hc)

theorem dropLit_append (lit s : List Char) : dropLit lit (lit ++ s) = some s := by
  induction lit with
  | nil => rfl
  | cons c cs ih => simp [dropLit, ih]

theorem matchThisChain_ident (bn cn : String) (rest : List Char)
    (hb : WordStr bn) (hc : WordStr cn)
    (hrest : ∀ ch, rest.head? = some ch → wordChar ch = false) :
    matchThisChain ("this.".toList ++ (bn.toList ++ '.' :: (cn.toList ++ rest))) =
      some (bn, cn, rest) := by
  obtain ⟨c0, cs0, hcn⟩ := List.exists_cons_of_ne_nil hc.1
  have hc0 : wordChar c0 = true := hc.2 c0 (by rw [hcn]; exact List.mem_cons_self _ _)
  unfold matchThisChain
  rw [dropLit_append]
  simp only [Option.some_bind]
  rw [takeWord_append bn.toList ('.' :: (cn.toList ++ rest)) hb.1 hb.2
    (by
      intro ch h
      rw [List.head?_cons] at h
      injection h with h
      subst h
      decide)]
  simp only [Option.some_bind]
  rw [skipSpaces_not_space '.' _ (by decide)]
  rw [show expectChar '.' ('.' :: (cn.toList ++ rest)) = some (cn.toList ++ rest) by
    simp [expectChar]]
  simp only [Option.some_bind]
  rw [skipSpaces_word_head (cn.toList ++ rest) c0 (by rw [hcn]; rfl) hc0]
  rw [takeWord_append cn.toList rest hc.1 hc.2 hrest]
  simp only [Option.map_some']
  rfl

theorem dropLit_subset (lit : List Char) :
    ∀ s r, dropLit lit s = some r → ∀ x, x ∈ r → x ∈ s := by
  induction lit with
  | nil =>
    intro s r h x hx
    cases h
    exact hx
  | cons c cs ih =>
    intro s r h x hx
    cases s with
    | nil => cases h
    | cons d ds =>
      unfold dropLit at h
      by_cases hd : c == d
      · rw [if_pos hd] at h
        exact List.mem_cons_of_mem _ (ih ds r h x hx)
      · rw [if_neg hd] at h
        cases h

theorem expectChar_mem (c : Char) (l r : List Char) (h : expectChar c l = some r) : c ∈ l := by
  cases l with
  | nil => cases h
  | cons d ds =>
    rw [show expectChar c (d :: ds) = if d == c then some ds else none from rfl] at h
    by_cases hd : d == c
    · have hdc : d = c := by simpa using hd
      rw [← hdc]
      exact List.mem_cons_self _ _
    · rw [if_neg hd] at h
      cases h

theorem skipSpaces_subset (l : List Char) (x : Char) (hx : x ∈ skipSpaces l) : x ∈ l :=
  (List.dropWhile_sublist _).subset hx

theorem matchInjectCallAt_paren (s : List Char) (pr : String × String)
    (h : matchInjectCallAt s = some pr) : '(' ∈ s := by
  unfold matchInjectCallAt at h
  rw [Option.bind_eq_some] at h
  obtain ⟨r1, h1, h⟩ := h
  rw [Option.bind_eq_some] at h
  obtain ⟨r2, h2, _⟩ := h
  exact dropLit_subset _ _ _ h1 '(' (skipSpaces_subset _ _ (expectChar_mem _ _ _ h2))

theorem findInjectCallAux_no_paren (s : List Char) (h : ¬('(' ∈ s)) :
    findInjectCallAux s = none := by
  induction s with
  | nil => rfl
  | cons c cs ih =>
    rw [show findInjectCallAux (c :: cs) =
      (match matchInjectCallAt (c :: cs) with
        | some r => some r
        | none => findInjectCallAux cs) from rfl]
    cases hm : matchInjectCallAt (c :: cs) with
    | some pr => exact absurd (matchInjectCallAt_paren _ _ hm) h
    | none => exact ih (fun hx => h (List.mem_cons_of_mem _ hx))

theorem wordStr_no_dot (s : String) (hs : WordStr s) : ¬('.' ∈ s.toList) := by
  intro hmem
  exact absurd (hs.2 '.' hmem) (by decide)

theorem wordStr_no_paren (s : String) (hs : WordStr s) : ¬('(' ∈ s.toList) := by
  intro hmem
  exact absurd (hs.2 '(' hmem) (by decide)

theorem dotFree_append_inj (a : List Char) :
    ∀ (b t u : List Char), ¬('.' ∈ a) → ¬('.' ∈ b) → a ++ '.' :: t = b ++ '.' :: u →
      a = b ∧ t = u := by
  induction a with
  | nil =>
    intro b t u _ hb h
    cases b with
    | nil => simpa using h
    | cons x xs =>
      simp only [List.nil_append, List.cons_append, List.cons_eq_cons] at h
      exact absurd (h.1 ▸ List.mem_cons_self x xs) hb
  | cons x xs ih =>
    intro b t u ha hb h
    cases b with
    | nil =>
      simp only [List.cons_append, List.nil_append, List.cons_eq_cons] at h
      exact absurd (h.1 ▸ List.mem_cons_self x xs) (h.1 ▸ ha)
    | cons y ys =>
      simp only [List.cons_append, List.cons_eq_cons] at h
      obtain ⟨rfl, h2⟩ := h
      have := ih ys t u (fun hm => ha (List.mem_cons_of_mem _ hm))
        (fun hm => hb (List.mem_cons_of_mem _ hm)) h2
      exact ⟨by rw [this.1], this.2⟩

theorem dotted_name_ne (B C x y : String) (hB : ¬('.' ∈ B.toList)) (hC : ¬('.' ∈ C.toList))
    (hne : C ≠ B) : C ++ "." ++ x ≠ B ++ "." ++ y := by
  intro h
  have hd : (C ++ "." ++ x).toList = (B ++ "." ++ y).toList := by rw [h]
  simp only [String.toList, String.data_append] at hd
  rw [List.append_assoc, List.append_assoc] at hd
  have := dotFree_append_inj C.toList B.toList x.toList y.toList hC hB (by simpa using hd)
  exact hne (by
    have h1 := this.1
    have : String.mk C.toList = String.mk B.toList := by rw [h1]
    simpa using this)

/-- C2: with `A`'s binding map sending `_b` to `B`, `B`'s own binding map
sending `c` to `C`, and `C` declaring `m`, the call text `this._b.c.m` inside a
method of `A` resolves to exactly the callee `C.m` — not `B.m` and not `B.c`;
the corresponding reverse edge therefore targets `C.m`. -/
theorem C2_transitive_injection (bn cn mn B C : String)
    (inj : List (String × String)) (nmap : List (String × List (String × String)))
    (cmap : List (String × List String)) (bmap : List (String × String))
    (hb : WordStr bn) (hc : WordStr cn) (hm : WordStr mn)
    (hB : WordStr B) (hC : WordStr C) (hBC : C ≠ B)
    (h1 : mapGet inj bn = some B)
    (h2 : mapGet nmap B = some bmap)
    (h3 : mapGet bmap cn = some C)
    (_h4 : mn ∈ (mapGet cmap C).getD []) :
    resolveClassCall inj nmap cmap ("this." ++ bn ++ "." ++ cn ++ "." ++ mn) =
        some (C ++ "." ++ mn) ∧
      C ++ "." ++ mn ≠ B ++ "." ++ mn ∧
      C ++ "." ++ mn ≠ B ++ "." ++ cn := by
  have hcall : ("this." ++ bn ++ "." ++ cn ++ "." ++ mn).toList =
      "this.".toList ++ (bn.toList ++ '.' :: (cn.toList ++ '.' :: mn.toList)) := by
    simp [String.toList, String.data_append]
  have hchain : matchThisChain ("this." ++ bn ++ "." ++ cn ++ "." ++ mn).toList =
      some (bn, cn, '.' :: mn.toList) := by
    rw [hcall]
    exact matchThisChain_ident bn cn ('.' :: mn.toList) hb hc
      (by
        intro ch h
        rw [List.head?_cons] at h
        injection h with h
        subst h
        decide)
  have hsimple : matchSimpleCall ("this." ++ bn ++ "." ++ cn ++ "." ++ mn) = some (bn, cn) := by
    unfold matchSimpleCall
    rw [hchain]
    rfl
  have hnested : matchNestedCall ("this." ++ bn ++ "." ++ cn ++ "." ++ mn) =
      some (bn, cn, mn) := by
    unfold matchNestedCall
    rw [hchain]
    simp only [Option.some_bind]
    rw [skipSpaces_not_space '.' _ (by decide)]
    rw [show expectChar '.' ('.' :: mn.toList) = some mn.toList by simp [expectChar]]
    simp only [Option.some_bind]
    obtain ⟨m0, ms0, hmn⟩ := List.exists_cons_of_ne_nil hm.1
    rw [skipSpaces_word_head mn.toList m0 (by rw [hmn]; rfl)
      (hm.2 m0 (by rw [hmn]; exact List.mem_cons_self _ _))]
    rw [takeWord_all mn hm]
    simp only [Option.map_some']
    rfl
  have hparen : ¬('(' ∈ ("this." ++ bn ++ "." ++ cn ++ "." ++ mn).toList) := by
    rw [hcall]
    intro hmem
    simp only [List.mem_append, List.mem_cons] at hmem
    rcases hmem with h0 | hh | h0 | hh | h0
    · exact absurd h0 (by decide)
    · exact wordStr_no_paren bn hb hh
    · exact absurd h0 (by decide)
    · exact wordStr_no_paren cn hc hh
    · rcases h0 with h0 | hh
      · exact absurd h0 (by decide)
      · exact wordStr_no_paren mn hm hh
  have hinj : resolveInjectRule cmap ("this." ++ bn ++ "." ++ cn ++ "." ++ mn) = none := by
    unfold resolveInjectRule findInjectCall
    rw [findInjectCallAux_no_paren _ hparen]
  have hsimpleRule : resolveSimpleRule inj nmap ("this." ++ bn ++ "." ++ cn ++ "." ++ mn) =
      none := by
    unfold resolveSimpleRule
    rw [hsimple]
    simp [h1, h2, mapHas, h3]
  have hnestedRule : resolveNestedRule inj nmap ("this." ++ bn ++ "." ++ cn ++ "." ++ mn) =
      some (C ++ "." ++ mn) := by
    unfold resolveNestedRule
    rw [hnested]
    simp [h1, h2, h3]
  refine ⟨?_, ?_, ?_⟩
  · rw [resolveClassCall_eq, hinj, hnestedRule]
  · exact dotted_name_ne B C mn mn (wordStr_no_dot B hB) (wordStr_no_dot C hC) hBC
  · exact dotted_name_ne B C mn cn (wordStr_no_dot B hB) (wordStr_no_dot C hC) hBC

/-- Closed instance of `C2_transitive_injection`. -/
theorem C2_transitive_injection_witness :
    resolveClassCall [("_b", "B")] [("A", [("_b", "B")]), ("B", [("c", "C")])]
        [("C", ["m"])] "this._b.c.m" = some "C.m" := by
  have h := C2_transitive_injection "_b" "c" "m" "B" "C"
    [("_b", "B")] [("A", [("_b", "B")]), ("B", [("c", "C")])] [("C", ["m"])] [("c", "C")]
    (by decide) (by decide) (by decide) (by decide) (by decide) (by decide)
    (by decide) (by decide) (by decide) (by decide)
  exact h.1

/-- C3 (amended): the class-method branch attempts the rules in source order
but each later rule that matches overwrites an earlier resolution, so the last
matching rule determines the emitted callee (the simple and nested rules being
mutually exclusive, the inline `inject` rule effectively overrides both); in
the free-function branch the inline `inject` rule takes precedence over the
local-variable rule. -/
theorem C3_amended_rule_precedence :
    ∀ (inj : List (String × String)) (nmap : List (String × List (String × String)))
      (cmap : List (String × List String)) (li : List (String × String)) (call : String),
      (resolveClassCall inj nmap cmap call =
        match resolveInjectRule cmap call with
        | some r => some r
        | none =>
          match resolveNestedRule inj nmap call with
          | some r => some r
          | none => resolveSimpleRule inj nmap call) ∧
      (∀ r, resolveNestedRule inj nmap call = some r → resolveSimpleRule inj nmap call = none) ∧
      (resolveFnCall li cmap call =
        match resolveInjectRule cmap call with
        | some r => some r
        | none => resolveLocalVarRule li cmap call) := by
  intro inj nmap cmap li call
  exact ⟨resolveClassCall_eq inj nmap cmap call,
    fun r h => nested_excludes_simple inj nmap call r h,
    rfl⟩

/-- Closed instance of `C3_amended_rule_precedence`. -/
theorem C3_amended_rule_precedence_witness :
    resolveClassCall [("_a", "B")] [] [("C", ["d"])] "this._a.inject(C).d" =
      match resolveInjectRule [("C", ["d"])] "this._a.inject(C).d" with
      | some r => some r
      | none =>
        match resolveNestedRule [("_a", "B")] [] "this._a.inject(C).d" with
        | some r => some r
        | none => resolveSimpleRule [("_a", "B")] [] "this._a.inject(C).d" :=
  (C3_amended_rule_precedence [("_a", "B")] [] [("C", ["d"])] [] "this._a.inject(C).d").1

/-- C3 counterexample: for the call text `this._a.inject(C).d` inside class
`A`, the first matching rule (rule 1) resolves to `B.inject`, yet the scan
emits the reverse edge `C.d`, produced by the later inline `inject` rule — so
the first matching rule does not determine the emitted callee. -/
theorem C3_counterexample :
    resolveSimpleRule [("_a", "B")]
      (scan cx3Input).st.nestedInjectionMap "this._a.inject(C).d" = some "B.inject" ∧
    mapGet (scan cx3Input).st.injectionMap "A" = some [("_a", "B")] ∧
    resolveClassCall [("_a", "B")] (scan cx3Input).st.nestedInjectionMap
      (scan cx3Input).st.classMethodsMap "this._a.inject(C).d" = some "C.d" ∧
    EdgeMem (scan cx3Input).st.reverseCallGraph "C.d" "A.m1" ∧
    ¬EdgeMem (scan cx3Input).st.reverseCallGraph "B.inject" "A.m1" ∧
    ¬("C.d" = "B.inject") := by
  decide

/-! ## Circular-dependency detection (C7) -/

theorem dfsPushCycle_keys (cyc : List String) (s : DfsState)
    (hs : s.cycles.Pairwise (fun a b => cycleKey a.cycle ≠ cycleKey b.cycle)) :
    (dfsPushCycle cyc s).cycles.Pairwise
      (fun a b => cycleKey a.cycle ≠ cycleKey b.cycle) := by
  unfold dfsPushCycle
  by_cases h : s.cycles.any (fun c => cycleKey c.cycle == cycleKey cyc)
  · rw [if_pos h]
    exact hs
  · rw [if_neg h]
    show (s.cycles ++
      [CircularDependency.mk cyc ("Circular: " ++ String.intercalate " -> " cyc)]).Pairwise _
    rw [List.pairwise_append]
    refine ⟨hs, List.pairwise_singleton _ _, ?_⟩
    intro a ha b hb
    rw [List.mem_singleton] at hb
    subst hb
    intro hk
    rw [Bool.not_eq_true, List.any_eq_false] at h
    exact h a ha (beq_iff_eq.2 hk)

theorem dfsRecordCycle_keys (path : List String) (dep : String) (s : DfsState)
    (hs : s.cycles.Pairwise (fun a b => cycleKey a.cycle ≠ cycleKey b.cycle)) :
    (dfsRecordCycle path dep s).cycles.Pairwise
      (fun a b => cycleKey a.cycle ≠ cycleKey b.cycle) :=
  dfsPushCycle_keys (dfsCycleOf path dep) s hs

theorem dfsVisit_keys (graph : List (String × List String)) :
    ∀ (fuel : Nat) (node : String) (path : List String) (s : DfsState),
      s.cycles.Pairwise (fun a b => cycleKey a.cycle ≠ cycleKey b.cycle) →
      (dfsVisit graph fuel node path s).cycles.Pairwise
        (fun a b => cycleKey a.cycle ≠ cycleKey b.cycle) := by
  intro fuel
  induction fuel with
  | zero => exact fun _ _ s hs => hs
  | succ fuel ih =>
    intro node path s hs
    have aux : ∀ (ds : List String) (t : DfsState),
        t.cycles.Pairwise (fun a b => cycleKey a.cycle ≠ cycleKey b.cycle) →
        (ds.foldl (fun s dep =>
          if dep ∈ s.visited then
            if dep ∈ s.recStack then dfsRecordCycle path dep s
            else s
          else dfsVisit graph fuel dep (path ++ [dep]) s) t).cycles.Pairwise
          (fun a b => cycleKey a.cycle ≠ cycleKey b.cycle) := by
      intro ds
      induction ds with
      | nil => exact fun t ht => ht
      | cons d rest ihd =>
        intro t ht
        rw [List.foldl_cons]
        apply ihd
        by_cases h1 : d ∈ t.visited
        · rw [if_pos h1]
          by_cases h2 : d ∈ t.recStack
          · rw [if_pos h2]
            exact dfsRecordCycle_keys path d t ht
          · rw [if_neg h2]
            exact ht
        · rw [if_neg h1]
          exact ih d (path ++ [d]) t ht
    exact aux _ _ hs

theorem detectCircularDependencies_keys (pf : List String) (files : List FileInfo) :
    (detectCircularDependencies pf files).Pairwise
      (fun a b => cycleKey a.cycle ≠ cycleKey b.cycle) := by
  unfold detectCircularDependencies
  generalize buildImportGraph pf files = g
  have aux : ∀ (l : List (String × List String)) (s : DfsState),
      s.cycles.Pairwise (fun a b => cycleKey a.cycle ≠ cycleKey b.cycle) →
      (l.foldl (fun s kv =>
        if kv.1 ∈ s.visited then s
        else dfsVisit g (g.length + 1) kv.1 [kv.1] s) s).cycles.Pairwise
        (fun a b => cycleKey a.cycle ≠ cycleKey b.cycle) := by
    intro l
    induction l with
    | nil => exact fun s hs => hs
    | cons kv rest ihl =>
      intro s hs
      rw [List.foldl_cons]
      apply ihl
      by_cases h : kv.1 ∈ s.visited
      · rw [if_pos h]
        exact hs
      · rw [if_neg h]
        exact dfsVisit_keys g _ _ _ s hs
  exact aux g ⟨[], [], []⟩ (List.Pairwise.nil)

/-- C7: when two files mutually import each other (and nothing else resolves),
the detector produces exactly one circular-dependency entry containing both
files, in either processing order, and in general no two reported entries
share the sorted-join deduplication key. -/
theorem C7_circular_symmetry (pf : List String) (files : List FileInfo) (x y : String)
    (hxy : x ≠ y)
    (hg : buildImportGraph pf files = [(x, [y]), (y, [x])] ∨
          buildImportGraph pf files = [(y, [x]), (x, [y])]) :
    (∃ cd, detectCircularDependencies pf files = [cd] ∧ x ∈ cd.cycle ∧ y ∈ cd.cycle) ∧
    (detectCircularDependencies pf files).Pairwise
      (fun a b => cycleKey a.cycle ≠ cycleKey b.cycle) := by
  have hyx : y ≠ x := fun h => hxy h.symm
  refine ⟨?_, detectCircularDependencies_keys pf files⟩
  unfold detectCircularDependencies
  rcases hg with hg | hg <;> rw [hg]
  · refine ⟨⟨[x, y, x], "Circular: " ++ String.intercalate " -> " [x, y, x]⟩,
      ?_, by simp, by simp⟩
    simp [dfsVisit, dfsRecordCycle, dfsPushCycle, dfsCycleOf, mapGet, setAdd,
      jsIndexOf, jsIndexOfAux, hxy, hyx]
  · refine ⟨⟨[y, x, y], "Circular: " ++ String.intercalate " -> " [y, x, y]⟩,
      ?_, by simp, by simp⟩
    simp [dfsVisit, dfsRecordCycle, dfsPushCycle, dfsCycleOf, mapGet, setAdd,
      jsIndexOf, jsIndexOfAux, hxy, hyx]

/-- Closed instance of `C7_circular_symmetry` on two concrete mutually
importing files. -/
theorem C7_circular_symmetry_witness :
    (∃ cd, detectCircularDependencies ["/p/x.ts", "/p/y.ts"]
        [(scanFile ScannerState.empty cx7FileX).1,
          (scanFile (scanFile ScannerState.empty cx7FileX).2 cx7FileY).1] = [cd] ∧
        "x.ts" ∈ cd.cycle ∧ "y.ts" ∈ cd.cycle) ∧
      (detectCircularDependencies ["/p/x.ts", "/p/y.ts"]
        [(scanFile ScannerState.empty cx7FileX).1,
          (scanFile (scanFile ScannerState.empty cx7FileX).2 cx7FileY).1]).Pairwise
        (fun a b => cycleKey a.cycle ≠ cycleKey b.cycle) :=
  C7_circular_symmetry ["/p/x.ts", "/p/y.ts"]
    [(scanFile ScannerState.empty cx7FileX).1,
      (scanFile (scanFile ScannerState.empty cx7FileX).2 cx7FileY).1]
    "x.ts" "y.ts" (by decide) (Or.inl (by decide))

/-! ## Stable descending sort lemmas and the summary rankings (C6) -/

theorem mem_insertDescBy {α : Type} (key : α → Nat) (x : α) (l : List α) (b : α) :
    b ∈ insertDescBy key x l ↔ b = x ∨ b ∈ l := by
  induction l with
  | nil => simp [insertDescBy]
  | cons y ys ih =>
    unfold insertDescBy
    by_cases h : key y ≤ key x
    · simp [h]
    · simp only [if_neg h, List.mem_cons, ih]
      tauto

theorem insertDescBy_pairwise {α : Type} (key : α → Nat) (x : α) (l : List α)
    (h : l.Pairwise (fun a b => key b ≤ key a)) :
    (insertDescBy key x l).Pairwise (fun a b => key b ≤ key a) := by
  induction l with
  | nil => simp [insertDescBy]
  | cons y ys ih =>
    rw [List.pairwise_cons] at h
    obtain ⟨hy, hys⟩ := h
    unfold insertDescBy
    by_cases hcmp : key y ≤ key x
    · rw [if_pos hcmp]
      refine List.pairwise_cons.2 ⟨?_, List.pairwise_cons.2 ⟨hy, hys⟩⟩
      intro b hb
      rcases List.mem_cons.1 hb with rfl | hb
      · exact hcmp
      · exact le_trans (hy b hb) hcmp
    · rw [if_neg hcmp]
      refine List.pairwise_cons.2 ⟨?_, ih hys⟩
      intro b hb
      rcases (mem_insertDescBy key x ys b).1 hb with rfl | hb
      · exact Nat.le_of_lt (Nat.lt_of_not_le hcmp)
      · exact hy b hb

theorem sortDescBy_pairwise {α : Type} (key : α → Nat) (l : List α) :
    (sortDescBy key l).Pairwise (fun a b => key b ≤ key a) := by
  induction l with
  | nil => simp [sortDescBy]
  | cons a rest ih => exact insertDescBy_pairwise key a _ ih

theorem mem_sortDescBy {α : Type} (key : α → Nat) (l : List α) (b : α) :
    b ∈ sortDescBy key l ↔ b ∈ l := by
  induction l with
  | nil => simp [sortDescBy]
  | cons a rest ih =>
    show b ∈ insertDescBy key a (sortDescBy key rest) ↔ _
    rw [mem_insertDescBy, ih]
    simp

theorem filter_insertDescBy {α : Type} (key : α → Nat) (x : α) (l : List α) (k : Nat) :
    (insertDescBy key x l).filter (fun a => key a == k) =
      if key x = k then x :: l.filter (fun a => key a == k)
      else l.filter (fun a => key a == k) := by
  induction l with
  | nil =>
    unfold insertDescBy
    by_cases h : key x = k
    · simp [List.filter, h]
    · have hb : (key x == k) = false := beq_eq_false_iff_ne.2 h
      simp [List.filter, hb, h]
  | cons y ys ih =>
    unfold insertDescBy
    by_cases hcmp : key y ≤ key x
    · rw [if_pos hcmp]
      by_cases hx : key x = k <;> simp [List.filter_cons, hx]
    · rw [if_neg hcmp]
      by_cases hy : key y = k
      · have hxk : ¬key x = k := by
          intro hxe
          exact hcmp (le_of_eq (by rw [hy, hxe]))
        simp [List.filter_cons, hy, hxk, ih]
      · by_cases hx : key x = k <;> simp [List.filter_cons, hy, hx, ih]

theorem sortDescBy_filter {α : Type} (key : α → Nat) (l : List α) (k : Nat) :
    (sortDescBy key l).filter (fun a => key a == k) = l.filter (fun a => key a == k) := by
  induction l with
  | nil => rfl
  | cons a rest ih =>
    show (insertDescBy key a (sortDescBy key rest)).filter _ = _
    rw [filter_insertDescBy]
    by_cases h : key a = k
    · simp [List.filter_cons, h, ih]
    · simp [List.filter_cons, h, ih]

theorem pairwise_take_map {α β : Type} (R : β → β → Prop) (f : α → β) (l : List α) (n : Nat)
    (h : l.Pairwise (fun a b => R (f a) (f b))) :
    ((l.take n).map f).Pairwise R := by
  rw [List.pairwise_map]
  exact h.sublist (List.take_sublist n l)

/-- C6 (amended): each of the four summary rankings has at most 10 entries and
is sorted descending by its count, produced by a stable sort (equal-count
entries keep their input order, witnessed by the filter-preservation law of
`sortDescBy`); the methods and services rankings exclude zero-count entries,
but the classes-by-method-count and files-by-import-count rankings include
zero-count entries. -/
theorem C6_amended_summary_rankings (injMap : List (String × List (String × String)))
    (files : List FileInfo) :
    ((generateSummary injMap files).mostCalledMethods.length ≤ 10 ∧
      (generateSummary injMap files).mostCalledMethods.Pairwise
        (fun a b => b.callerCount ≤ a.callerCount) ∧
      ∀ e ∈ (generateSummary injMap files).mostCalledMethods, 0 < e.callerCount) ∧
    ((generateSummary injMap files).mostUsedServices.length ≤ 10 ∧
      (generateSummary injMap files).mostUsedServices.Pairwise
        (fun a b => b.usageCount ≤ a.usageCount) ∧
      ∀ e ∈ (generateSummary injMap files).mostUsedServices, 0 < e.usageCount) ∧
    ((generateSummary injMap files).largestClasses.length ≤ 10 ∧
      (generateSummary injMap files).largestClasses.Pairwise
        (fun a b => b.methodCount ≤ a.methodCount)) ∧
    ((generateSummary injMap files).filesByImports.length ≤ 10 ∧
      (generateSummary injMap files).filesByImports.Pairwise
        (fun a b => b.importCount ≤ a.importCount)) ∧
    (∀ (l : List (String × Nat)) (k : Nat),
      (sortDescBy (fun p => p.2) l).filter (fun p => p.2 == k) =
        l.filter (fun p => p.2 == k)) := by
  refine ⟨⟨?_, ?_, ?_⟩, ⟨?_, ?_, ?_⟩, ⟨?_, ?_⟩, ⟨?_, ?_⟩, ?_⟩
  · show (((sortDescBy _ _).take 10).map _).length ≤ 10
    rw [List.length_map]
    exact List.length_take_le 10 _
  · exact pairwise_take_map _ _ _ 10
      (sortDescBy_pairwise (fun p : String × Nat => p.2) _)
  · intro e he
    show 0 < e.callerCount
    rcases List.mem_map.1 he with ⟨p, hp, rfl⟩
    have hp2 := (List.take_sublist 10 _).subset hp
    rw [mem_sortDescBy] at hp2
    have := List.of_mem_filter hp2
    simpa using this
  · show (((sortDescBy _ _).take 10).map _).length ≤ 10
    rw [List.length_map]
    exact List.length_take_le 10 _
  · exact pairwise_take_map _ _ _ 10
      (sortDescBy_pairwise (fun p : String × Nat => p.2) _)
  · intro e he
    show 0 < e.usageCount
    rcases List.mem_map.1 he with ⟨p, hp, rfl⟩
    have hp2 := (List.take_sublist 10 _).subset hp
    rw [mem_sortDescBy] at hp2
    have := List.of_mem_filter hp2
    simpa using this
  · exact List.length_take_le 10 _
  · exact (sortDescBy_pairwise (fun c : ClassRank => c.methodCount) _).sublist
      (List.take_sublist 10 _)
  · exact List.length_take_le 10 _
  · exact (sortDescBy_pairwise (fun fr : FileRank => fr.importCount) _).sublist
      (List.take_sublist 10 _)
  · exact fun l k => sortDescBy_filter (fun p => p.2) l k

/-- Closed instance of `C6_amended_summary_rankings`. -/
theorem C6_amended_summary_rankings_witness :
    ((generateSummary [] cx6Files).mostCalledMethods.length ≤ 10 ∧
      (generateSummary [] cx6Files).mostCalledMethods.Pairwise
        (fun a b => b.callerCount ≤ a.callerCount) ∧
      ∀ e ∈ (generateSummary [] cx6Files).mostCalledMethods, 0 < e.callerCount) ∧
    ((generateSummary [] cx6Files).mostUsedServices.length ≤ 10 ∧
      (generateSummary [] cx6Files).mostUsedServices.Pairwise
        (fun a b => b.usageCount ≤ a.usageCount) ∧
      ∀ e ∈ (generateSummary [] cx6Files).mostUsedServices, 0 < e.usageCount) ∧
    ((generateSummary [] cx6Files).largestClasses.length ≤ 10 ∧
      (generateSummary [] cx6Files).largestClasses.Pairwise
        (fun a b => b.methodCount ≤ a.methodCount)) ∧
    ((generateSummary [] cx6Files).filesByImports.length ≤ 10 ∧
      (generateSummary [] cx6Files).filesByImports.Pairwise
        (fun a b => b.importCount ≤ a.importCount)) ∧
    (∀ (l : List (String × Nat)) (k : Nat),
      (sortDescBy (fun p => p.2) l).filter (fun p => p.2 == k) =
        l.filter (fun p => p.2 == k)) :=
  C6_amended_summary_rankings [] cx6Files

/-- C6 counterexample: with a single import-free file containing a method-free
class, both the files-by-imports ranking and the classes-by-method-count
ranking contain a zero-count entry, contradicting the claim that every ranking
excludes entries whose count is zero. -/
theorem C6_counterexample :
    (∃ e ∈ (generateSummary [] cx6Files).filesByImports, e.importCount = 0) ∧
    (∃ e ∈ (generateSummary [] cx6Files).largestClasses, e.methodCount = 0) := by
  decide

/-- Closed instance of `C5_export_exemption`. -/
theorem C5_export_exemption_witness :
    let fn0 : FunctionInfo :=
      { name := "orphan", line := 3, params := [], returnType := "void",
        calls := [], exported := false }
    let file0 : FileInfo :=
      { path := "/p/a.ts", relativePath := "a.ts", imports := [],
        exports := [], classes := [], functions := [fn0], templateBindings := [] }
    ((deadFunctionItem [] file0 fn0).isSome = true) ∧
      deadFunctionItem [] file0 { fn0 with exported := true } = none := by
  intro fn0 file0
  have h := C5_export_exemption [] file0 fn0 (Or.inl rfl)
  exact ⟨by rw [h.1]; rfl, h.2.1⟩

/-! ## C1: the two call-graph invariants -/

/-- C1 (corrected): the forward graph is last-write-wins over the extracted
entries, so colliding `Class.method` identities overwrite earlier call lists;
and the reverse graph holds the raw method call-text edges in addition to the
resolved and template-synthesized edges. -/
theorem C1_graph_characterization (input : ScanInput) :
    (∀ k, mapGet ((scan input).st).callGraph k =
      lastAssoc (forwardEntries (scanExtractedFiles input)) k) ∧
    (∀ k c, EdgeMem ((scan input).st).reverseCallGraph k c ↔
      MethodRawEdge (scanExtractedFiles input) k c ∨
      TemplateEdge (scanExtractedFiles input) k c ∨
      ResolvedEdge ((scan input).st) (scanExtractedFiles input) k c) :=
  ⟨fun k => scan_cg input k, fun k c => scan_rev_spec input k c⟩

/-- C1 counterexample: with two classes both named `A` whose method `m` calls
`x` and `y` respectively, the raw unresolved non-template call text `x` is a
reverse-graph key, and the forward graph maps `A.m` only to the second
method's calls, losing `x`. -/
theorem C1_counterexample :
    MethodRawEdge (scanExtractedFiles cx1Input) "x" "A.m" ∧
    EdgeMem ((scan cx1Input).st).reverseCallGraph "x" "A.m" ∧
    ¬TemplateEdge (scanExtractedFiles cx1Input) "x" "A.m" ∧
    ¬ResolvedEdge ((scan cx1Input).st) (scanExtractedFiles cx1Input) "x" "A.m" ∧
    mapGet ((scan cx1Input).st).callGraph "A.m" = some ["y"] := by decide

/-! ## C8: template-edge attribution -/

/-- C8 (corrected): every template binding whose expression contains a
call-like substring yields an edge keyed by the file's FIRST class — not the
class owning the Component decorator — with caller `template:<relativePath>`,
and these are exactly the edges the template pass adds. -/
theorem C8_template_edge_attribution (st : ScannerState) (fi : FileInfo)
    (bindings : List TemplateBinding) (k c : String) :
    EdgeMem (addTemplateBindingsToCallGraph st fi bindings).reverseCallGraph k c ↔
      EdgeMem st.reverseCallGraph k c ∨
        ∃ b ∈ bindings,
          (fi.classes.head?).bind
            (fun cls0 => (findMethodName b.expression).map (fun n => cls0.name ++ "." ++ n))
            = some k ∧
          c = "template:" ++ fi.relativePath :=
  EdgeMem_addTemplate st fi bindings k c

/-- C8 counterexample: class `B` owns the Component decorator and declares
`save`, yet the template edge is keyed `A.save` after the file's first class. -/
theorem C8_counterexample :
    EdgeMem ((scan cx8Input).st).reverseCallGraph "A.save" "template:comp.ts" ∧
    ¬EdgeMem ((scan cx8Input).st).reverseCallGraph "B.save" "template:comp.ts" ∧
    cx8File.classes.map (fun c => (c.name, c.componentDecorator.isSome))
      = [(some "A", false), (some "B", true)] ∧
    (∃ fi ∈ scanExtractedFiles cx8Input, ∃ b ∈ fi.templateBindings,
      b.expression = "save()") := by decide

/-! ## C9: the analyzer frame -/

theorem eraseCalled_backfill (rg : List (String × List String)) (fi : FileInfo) :
    eraseCalled { fi with classes := fi.classes.map (fun cls =>
      { cls with methods := cls.methods.map (fun m =>
        match mapGet rg (cls.name ++ "." ++ m.name) with
        | some callers => { m with calledBy := callers }
        | none => m) }) } = eraseCalled fi := by
  unfold eraseCalled
  congr 1
  rw [List.map_map]
  refine List.map_eq_map_iff.2 (fun cls _ => ?_)
  dsimp only [Function.comp]
  congr 1
  rw [List.map_map]
  refine List.map_eq_map_iff.2 (fun m _ => ?_)
  dsimp only [Function.comp]
  cases h : mapGet rg (cls.name ++ "." ++ m.name) <;> rfl

theorem buildCallGraph_frame (rg : List (String × List String)) (files : List FileInfo) :
    (buildCallGraph rg files).map eraseCalled = files.map eraseCalled := by
  unfold buildCallGraph
  rw [List.map_map]
  exact List.map_eq_map_iff.2 (fun fi _ => eraseCalled_backfill rg fi)

theorem buildCallChains_frame (cg rg : List (String × List String)) (files : List FileInfo)
    (d : Nat) :
    (buildCallChains cg rg files d).map eraseChains = files.map eraseChains := by
  unfold buildCallChains
  dsimp only
  rw [List.map_map]
  refine List.map_eq_map_iff.2 (fun fi _ => ?_)
  unfold eraseChains
  dsimp only [Function.comp]
  congr 1
  rw [List.map_map]
  refine List.map_eq_map_iff.2 (fun cls _ => ?_)
  dsimp only [Function.comp]
  congr 1
  rw [List.map_map]
  refine List.map_eq_map_iff.2 (fun m _ => ?_)
  dsimp only [Function.comp]
  split
  · split <;> rfl
  · rfl

/-- C9 (corrected): after cross-file resolution, `buildCallGraph` rewrites only
`calledBy`, but `buildCallChains` then performs one further mutation the spec
does not admit — it writes `callChain` — and `scan`'s final files are exactly
the chain-annotated back-filled extraction. -/
theorem C9_analyzer_frame :
    (∀ (rg : List (String × List String)) (files : List FileInfo),
      (buildCallGraph rg files).map eraseCalled = files.map eraseCalled) ∧
    (∀ (cg rg : List (String × List String)) (files : List FileInfo) (d : Nat),
      (buildCallChains cg rg files d).map eraseChains = files.map eraseChains) ∧
    (∀ input : ScanInput, (scan input).files =
      buildCallChains ((scan input).st).callGraph ((scan input).st).reverseCallGraph
        (buildCallGraph ((scan input).st).reverseCallGraph (scanExtractedFiles input)) 3) :=
  ⟨buildCallGraph_frame, buildCallChains_frame, fun _ => rfl⟩

/-- C9 counterexample: `buildCallChains` writes `callChain`, a model mutation
beyond the single `calledBy` back-fill. -/
theorem C9_counterexample :
    buildCallChains [] cx9Rg cx9Files 3 ≠ cx9Files ∧
    (∃ fi ∈ buildCallChains [] cx9Rg cx9Files 3, ∃ cls ∈ fi.classes, ∃ m ∈ cls.methods,
      m.callChain.isSome) ∧
    (∀ fi ∈ cx9Files, ∀ cls ∈ fi.classes, ∀ m ∈ cls.methods, m.callChain = none) := by
  decide

/-! ## C10: free-function keys in the reverse graph -/

/-- C10: free-function extraction never writes the reverse graph, the
function-branch resolver produces only dotted `Class.method` keys, so for a
dot-free key the reverse graph holds exactly the raw class-method call-text
edges, and a non-exported free function with no such raw caller is always
reported dead. -/
theorem C10_function_keys (input : ScanInput) (k : String) (hk : ¬('.' ∈ k.toList)) :
    (∀ (st : ScannerState) (fn : AstFunction),
      ((scanFunction st fn).2).reverseCallGraph = st.reverseCallGraph) ∧
    (∀ (st : ScannerState) (v : AstVarFn),
      ((scanVarFn st v).2).reverseCallGraph = st.reverseCallGraph) ∧
    (∀ (li : List (String × String)) (cm : List (String × List String)) (call r : String),
      resolveFnCall li cm call = some r → '.' ∈ r.toList) ∧
    (∀ c, EdgeMem ((scan input).st).reverseCallGraph k c ↔
      MethodRawEdge (scanExtractedFiles input) k c) ∧
    (∀ (file : FileInfo) (fn : FunctionInfo), fn.name = k → fn.exported = false →
      ¬RawKeyUsed (scanExtractedFiles input) k →
      (deadFunctionItem ((scan input).st).reverseCallGraph file fn).isSome = true) := by
  have hiff : ∀ c, EdgeMem ((scan input).st).reverseCallGraph k c ↔
      MethodRawEdge (scanExtractedFiles input) k c := by
    intro c
    rw [scan_rev_spec]
    constructor
    · rintro (h | h | h)
      · exact h
      · exfalso
        unfold TemplateEdge FileTemplateEdge at h
        obtain ⟨fi, hfi, b, hb, hkey, -⟩ := h
        cases hhd : fi.classes.head? with
        | none =>
          rw [hhd] at hkey
          simp at hkey
        | some cls0 =>
          rw [hhd] at hkey
          have hkey2 : (findMethodName b.expression).map (fun n => cls0.name ++ "." ++ n)
              = some k := hkey
          obtain ⟨n, hn, hkn⟩ := Option.map_eq_some'.1 hkey2
          exact hk (hkn ▸ dot_mem_append cls0.name n)
      · exfalso
        unfold ResolvedEdge at h
        rcases h with ⟨fi, hfi, cls, hcls, m, hm, call, hcall, hres, -⟩ |
          ⟨fi, hfi, fn, hfn, call, hcall, hres, -⟩
        · exact hk (resolveClassCall_dot _ _ _ call k hres)
        · exact hk (resolveFnCall_dot _ _ call k hres)
    · exact fun h => Or.inl h
  refine ⟨scanFunction_rev, scanVarFn_rev,
    fun li cm call r h => resolveFnCall_dot li cm call r h, hiff, ?_⟩
  intro file fn hname hexp hraw
  refine deadFunctionItem_of_no_callers _ file fn ?_ hexp
  intro c hedge
  rw [hname] at hedge
  have hr := (hiff c).1 hedge
  unfold MethodRawEdge FileRawEdge at hr
  obtain ⟨fi, hfi, cls, hcls, m, hm, hkm, -⟩ := hr
  exact hraw ⟨fi, hfi, cls, hcls, m, hm, hkm⟩

/-- C10 witness: the scenario's non-exported `orphan` function, called only by
the free function `caller`, is reported dead. -/
theorem C10_function_keys_witness :
    (¬('.' ∈ "orphan".toList)) ∧
    (deadFunctionItem ((scan cx10Input).st).reverseCallGraph
      (fileInfoOf cx10File) cx10Fn).isSome = true :=
  ⟨by decide,
   (C10_function_keys cx10Input "orphan" (by decide)).2.2.2.2
     (fileInfoOf cx10File) cx10Fn rfl rfl (by decide)⟩

end S2P
